import Mathlib

/-!
Verification development for the task dispatcher of the canary game server
(src/src/game/scheduling/dispatcher.cpp).

The dispatcher state and every operation below are shallow embeddings of the
functions of dispatcher.cpp.  Group ordinals are natural numbers: Serial is 0,
GenericParallel is 1, and the parameter last stands for TaskGroup::Last, the
number of groups.  The declarations of the companion header (Task,
ScheduledTask, ThreadTask, DispatcherContext) are not part of the corpus;
those definitions are modelled from the specification and say so in their doc
comments.  Callables are abstracted by their Boolean outcome together with the
list of tasks they post while running; traces record every call of execute and
every reset of the thread-local context marker, in program order.
-/

set_option maxHeartbeats 1000000

namespace Disp

/-- Trace events of one dispatcher tick: a plain task executed in the stage of
a given group ordinal, a scheduled task executed during registry firing, or a
reset of the thread-local dispatcher context marker. -/
inductive TraceEv where
  | run (tid : Nat) (group : Nat)
  | runSched (sid : Nat)
  | ctxReset
deriving DecidableEq

/-- Modelled from the spec: a Task (header declaration missing from the
corpus) is a zero-argument callable with a group classification.  The callable
body is abstracted by the Boolean outcome of Task.execute together with the
list of tasks the body posts while it runs, each tagged with the ordinal of
the target group (0 for a post of a serial task, 1 and above for an async
post).  The field tid identifies the task in traces. -/
inductive Task where
  | mk (tid : Nat) (result : Bool) (posts : List (Nat × Task)) : Task

/-- Identity of a task in traces. -/
def Task.tid : Task → Nat
  | .mk i _ _ => i

/-- Boolean outcome of Task.execute. -/
def Task.result : Task → Bool
  | .mk _ r _ => r

/-- Tasks posted by the callable while it runs, with their group ordinals. -/
def Task.posts : Task → List (Nat × Task)
  | .mk _ _ p => p

/-- Modelled from the spec: a ScheduledTask (header declaration missing from
the corpus) extends a task with a globally unique id, an absolute deadline on
the cached clock, a period and a cycle flag.  The cancel latch lives in the
dispatcher state as a set of cancelled ids, which models the fact that the
registry, the id-map and the inboxes all alias one shared task object.
execOk abstracts the Boolean outcome of the underlying callable when it is
actually invoked; posts are the tasks the callable posts while it runs. -/
structure STask where
  sid : Nat
  time : Nat
  period : Nat
  cycle : Bool
  execOk : Bool
  posts : List (Nat × Task)

/-- Modelled from the spec: advance the deadline of a cyclic task by its
period (due_at_ms += period_ms). -/
def STask.updateTime (t : STask) : STask :=
  { t with time := t.time + t.period }

/-- Modelled from the spec: the submitter-local inbox, one per submitting
thread (ThreadTask in the source).  tasks is the group-indexed array of
pending task sequences and scheduledTasks the sequence of scheduled tasks
awaiting merge into the registry. -/
structure ThreadTask where
  tasks : Nat → List Task
  scheduledTasks : List STask

/-- A fresh inbox, as getThreadTask creates one on first use. -/
def emptyThreadTask : ThreadTask :=
  { tasks := fun _ => [], scheduledTasks := [] }

/-- Dispatcher state: m_tasks are the dispatcher-local task arrays indexed by
group ordinal, threads the submitter inboxes (index 0 is the inbox of the
thread the running code posts into, as getThreadTask returns the inbox of the
current thread), scheduledTasks the time-ordered registry, scheduledTasksRef
the key list of the id-map, and cancelled the ids whose cancel latch is set. -/
structure DpState where
  m_tasks : Nat → List Task
  threads : List ThreadTask
  scheduledTasks : List STask
  scheduledTasksRef : List Nat
  cancelled : List Nat

/-- The dispatcher state at process start. -/
def emptyState : DpState :=
  { m_tasks := fun _ => []
    threads := []
    scheduledTasks := []
    scheduledTasksRef := []
    cancelled := [] }

/-- Append one task to the sequence of a group inside an inbox. -/
def ThreadTask.post (ib : ThreadTask) (g : Nat) (t : Task) : ThreadTask :=
  { ib with tasks := fun x => if x = g then ib.tasks x ++ [t] else ib.tasks x }

/-- Append a batch of posted tasks, each into its group sequence, in order. -/
def ThreadTask.postAll (ib : ThreadTask) (ps : List (Nat × Task)) : ThreadTask :=
  ps.foldl (fun acc p => acc.post p.1 p.2) ib

/-- The tasks of one group among a batch of posted tasks, in order. -/
def groupPosts (g : Nat) (ps : List (Nat × Task)) : List Task :=
  (ps.filter (fun p => decide (p.1 = g))).map Prod.snd

/-- Apply an update to the inbox of the current thread, creating the inbox
lazily when none exists yet, as getThreadTask does. -/
def updateFirst (f : ThreadTask → ThreadTask) : List ThreadTask → List ThreadTask
  | [] => [f emptyThreadTask]
  | ib :: rest => f ib :: rest

/-- Apply an update to the inbox of the thread with the given index, creating
inboxes lazily when the thread has none yet, as getThreadTask registers the
inbox of a thread on its first submission. -/
def updateAtCreate : Nat → (ThreadTask → ThreadTask) → List ThreadTask → List ThreadTask
  | 0, f, [] => [f emptyThreadTask]
  | 0, f, ib :: rest => f ib :: rest
  | Nat.succ i, f, [] => emptyThreadTask :: updateAtCreate i f []
  | Nat.succ i, f, ib :: rest => ib :: updateAtCreate i f rest

/-- Modelled from the spec: the registry order, keyed by the deadline with the
id breaking ties (the older id first at equal deadlines). -/
def schedBefore (a b : STask) : Bool :=
  a.time < b.time || (a.time == b.time && a.sid < b.sid)

/-- Ordered insertion into the registry list, after any element with an equal
key, as multiset insertion places it. -/
def insertSched (t : STask) : List STask → List STask
  | [] => [t]
  | x :: xs => if schedBefore t x then t :: x :: xs else x :: insertSched t xs

/-- Insert a batch of scheduled tasks into the registry list, in order. -/
def insertAllSched (ts : List STask) (l : List STask) : List STask :=
  ts.foldl (fun acc t => insertSched t acc) l

/-- Dispatcher.addEvent: append a serial task to the inbox of the calling
thread (index i). -/
def addEvent (i : Nat) (t : Task) (st : DpState) : DpState :=
  { st with threads := updateAtCreate i (fun ib => ib.post 0 t) st.threads }

/-- Dispatcher.asyncEvent: append a task under the given group ordinal to the
inbox of the calling thread (index i). -/
def asyncEvent (i : Nat) (g : Nat) (t : Task) (st : DpState) : DpState :=
  { st with threads := updateAtCreate i (fun ib => ib.post g t) st.threads }

/-- Dispatcher.scheduleEvent: append the task to the scheduled sequence of the
inbox of the calling thread (index i) and put its id into the id-map when the
id is not there yet (map emplace keeps an existing entry); the returned event
id is the key of the map entry, which is the id of the task either way. -/
def scheduleEvent (i : Nat) (t : STask) (st : DpState) : DpState × Nat :=
  ({ st with
      threads := updateAtCreate i (fun ib =>
        { ib with scheduledTasks := ib.scheduledTasks ++ [t] }) st.threads
      scheduledTasksRef :=
        if t.sid ∈ st.scheduledTasksRef then st.scheduledTasksRef
        else st.scheduledTasksRef ++ [t.sid] },
   t.sid)

/-- Dispatcher.stopEvent: when the id is found in the id-map, set the cancel
latch of the task it points to and erase the map entry; otherwise do
nothing. -/
def stopEvent (eventId : Nat) (st : DpState) : DpState :=
  if eventId ∈ st.scheduledTasksRef then
    { st with
      cancelled := eventId :: st.cancelled
      scheduledTasksRef := st.scheduledTasksRef.erase eventId }
  else st

/-- All pending tasks of a group across a list of inboxes, in inbox order, as
the merge loops concatenate them. -/
def flatTasks (ths : List ThreadTask) (g : Nat) : List Task :=
  ths.flatMap (fun ib => ib.tasks g)

/-- All scheduled tasks awaiting merge across a list of inboxes, in inbox
order. -/
def flatScheds (ths : List ThreadTask) : List STask :=
  ths.flatMap (fun ib => ib.scheduledTasks)

/-- All pending tasks of a group across the inboxes of a state. -/
def allInboxTasks (st : DpState) (g : Nat) : List Task :=
  flatTasks st.threads g

/-- All scheduled tasks awaiting merge across the inboxes of a state. -/
def threadScheds (st : DpState) : List STask :=
  flatScheds st.threads

/-- Dispatcher.mergeAsyncEvents: for every inbox, append the sequences of the
parallel groups (ordinals 1 to last-1) to the dispatcher arrays and clear
them; group 0 and the scheduled sequences are untouched. -/
def mergeAsyncEvents (last : Nat) (st : DpState) : DpState :=
  { st with
    m_tasks := fun g =>
      if 1 ≤ g ∧ g < last then st.m_tasks g ++ allInboxTasks st g
      else st.m_tasks g
    threads := st.threads.map (fun ib =>
      { ib with tasks := fun g =>
          if 1 ≤ g ∧ g < last then [] else ib.tasks g }) }

/-- Dispatcher.mergeEvents: for every inbox, append the serial sequence to the
dispatcher serial array and clear it, and move the scheduled tasks into the
registry. -/
def mergeEvents (st : DpState) : DpState :=
  { st with
    m_tasks := fun g =>
      if g = 0 then st.m_tasks 0 ++ allInboxTasks st 0
      else st.m_tasks g
    threads := st.threads.map (fun ib =>
      { ib with
        tasks := fun g => if g = 0 then [] else ib.tasks g
        scheduledTasks := [] })
    scheduledTasks := insertAllSched (threadScheds st) st.scheduledTasks }

/-- Body of the loop of Dispatcher.executeSerialEvents: execute every task of
the batch in order; a task posts into the inbox of the current thread (the
dispatcher thread) while it runs.  Returns the updated inboxes and the trace
of the execute calls. -/
def runSerialLoop : List Task → List ThreadTask → List ThreadTask × List TraceEv
  | [], ths => (ths, [])
  | t :: rest, ths =>
    let ths1 := updateFirst (fun ib => ib.postAll t.posts) ths
    let out := runSerialLoop rest ths1
    (out.1, TraceEv.run t.tid 0 :: out.2)

/-- Dispatcher.executeSerialEvents: set the context marker for the batch, run
every task in order, clear the array, and reset the marker once after the
whole batch. -/
def executeSerialEvents (st : DpState) : DpState × List TraceEv :=
  let out := runSerialLoop (st.m_tasks 0) st.threads
  ({ st with
      m_tasks := fun g => if g = 0 then [] else st.m_tasks g
      threads := out.1 },
   out.2 ++ [TraceEv.ctxReset])

/-- Body of Dispatcher.executeParallelEvents: the lambda handed to asyncWait
sets the context marker, executes one task and resets the marker, for every
index of the batch.  Posts made by a running task go to the inbox of the
thread it runs on; all inboxes are drained alike by the merges, so the model
sends them to the first inbox. -/
def runParallelLoop (g : Nat) : List Task → List ThreadTask → List ThreadTask × List TraceEv
  | [], ths => (ths, [])
  | t :: rest, ths =>
    let ths1 := updateFirst (fun ib => ib.postAll t.posts) ths
    let out := runParallelLoop g rest ths1
    (out.1, TraceEv.run t.tid g :: TraceEv.ctxReset :: out.2)

/-- Dispatcher.executeParallelEvents: run the batch of the group through
asyncWait and clear the array. -/
def executeParallelEvents (g : Nat) (st : DpState) : DpState × List TraceEv :=
  let out := runParallelLoop g (st.m_tasks g) st.threads
  ({ st with
      m_tasks := fun x => if x = g then [] else st.m_tasks x
      threads := out.1 },
   out.2)

/-- Loop of Dispatcher.executeEvents: iterate the group ordinals upward from
g; return as soon as the array of the group at hand is empty; for the serial
group run the serial batch and then re-merge the parallel portions of the
inboxes; for a parallel group run the batch on the pool.  The fuel argument
counts the ordinals still below last. -/
def execFrom (last : Nat) : Nat → Nat → DpState → DpState × List TraceEv
  | 0, _, st => (st, [])
  | fuel + 1, g, st =>
    if (st.m_tasks g).isEmpty then (st, [])
    else if g = 0 then
      let o1 := executeSerialEvents st
      let st2 := mergeAsyncEvents last o1.1
      let o2 := execFrom last fuel (g + 1) st2
      (o2.1, o1.2 ++ o2.2)
    else
      let o1 := executeParallelEvents g st
      let o2 := execFrom last fuel (g + 1) o1.1
      (o2.1, o1.2 ++ o2.2)

/-- Dispatcher.executeEvents, iterating the groups from startGroup to
last - 1. -/
def executeEvents (last startGroup : Nat) (st : DpState) : DpState × List TraceEv :=
  execFrom last (last - startGroup) startGroup st

/-- Loop of Dispatcher.executeScheduledEvents: walk the registry in order and
stop at the first task whose deadline is after the cached now.  A task whose
cancel latch is set is dropped by execute without invocation, so its id is
erased from the id-map.  An invoked task posts into the inbox of the current
thread; when the invocation returns true and the task is cyclic, its deadline
is advanced and it is appended to the scheduled sequence of the inbox of the
current thread, otherwise its id is erased from the id-map.  The processed
part of the registry list is dropped, which models the final erase of the
fired part of the ordered set.  Returns the remaining registry, the id-map
keys, the inboxes and the trace. -/
def walkSched (now : Nat) (canc : List Nat) :
    List STask → List Nat → List ThreadTask →
    List STask × List Nat × List ThreadTask × List TraceEv
  | [], ref, ths => ([], ref, ths, [])
  | t :: rest, ref, ths =>
    if now < t.time then (t :: rest, ref, ths, [])
    else if t.sid ∈ canc then
      walkSched now canc rest (ref.erase t.sid) ths
    else
      let ths1 := updateFirst (fun ib => ib.postAll t.posts) ths
      if t.execOk && t.cycle then
        let ths2 := updateFirst (fun ib =>
          { ib with scheduledTasks := ib.scheduledTasks ++ [t.updateTime] }) ths1
        let out := walkSched now canc rest ref ths2
        (out.1, out.2.1, out.2.2.1, TraceEv.runSched t.sid :: out.2.2.2)
      else
        let out := walkSched now canc rest (ref.erase t.sid) ths1
        (out.1, out.2.1, out.2.2.1, TraceEv.runSched t.sid :: out.2.2.2)

/-- Dispatcher.executeScheduledEvents: walk the due part of the registry,
reset the context marker, re-merge the parallel portions of the inboxes and
run the staged execution from GenericParallel, so async work requested by the
fired callbacks runs within the same tick. -/
def executeScheduledEvents (last now : Nat) (st : DpState) : DpState × List TraceEv :=
  let w := walkSched now st.cancelled st.scheduledTasks st.scheduledTasksRef st.threads
  let st1 := { st with
    scheduledTasks := w.1
    scheduledTasksRef := w.2.1
    threads := w.2.2.1 }
  let st2 := mergeAsyncEvents last st1
  let o := executeEvents last 1 st2
  (o.1, w.2.2.2 ++ [TraceEv.ctxReset] ++ o.2)

/-- One iteration of the loop of Dispatcher.init: refresh the cached clock
(the parameter now), run the staged execution from Serial, fire the due
scheduled tasks, and merge the inboxes. -/
def tick (last now : Nat) (st : DpState) : DpState × List TraceEv :=
  let o1 := executeEvents last 0 st
  let o2 := executeScheduledEvents last now o1.1
  (mergeEvents o2.1, o1.2 ++ o2.2)

/-!  Parallel fan-out adapter (Dispatcher.asyncWait). -/

/-- Log of one asyncWait call: the indices invoked inline on the calling
thread, in invocation order, and the indices handed to the worker pool by
submit_loop. -/
structure AsyncLog where
  inlineCalls : List Nat
  pooled : List Nat
deriving DecidableEq

/-- Dispatcher.asyncWait over a request of the given size.  A requestSize of
zero returns at once.  When the re-entrancy flag asyncWaitDisabled is set the
whole index range runs inline on the calling thread, in increasing order, and
nothing reaches the pool.  Otherwise the first partition runs inline and, when
there is more than one partition, the range from the start of the second
partition to the end of the last is submitted to the pool.  The partition list
is produced by generatePartition, kept abstract here as an argument; each
partition is a half-open index range. -/
def asyncWait (requestSize : Nat) (asyncWaitDisabled : Bool)
    (partitions : List (Nat × Nat)) : AsyncLog :=
  if requestSize = 0 then { inlineCalls := [], pooled := [] }
  else if asyncWaitDisabled then
    { inlineCalls := List.range requestSize, pooled := [] }
  else
    let pSize := partitions.length
    let pooled :=
      if 1 < pSize then
        let lo := (partitions.getD 1 (0, 0)).1
        let hi := (partitions.getD (pSize - 1) (0, 0)).2
        List.range' lo (hi - lo)
      else []
    let p0 := partitions.getD 0 (0, 0)
    { inlineCalls := List.range' p0.1 (p0.2 - p0.1), pooled := pooled }

/-!  Cached monotonic clock and DispatcherContext. -/

/-- Modelled from the spec: the coarse monotonic clock cache read by
OTSYS_TIME and written by UPDATE_OTSYS_TIME; it is zero before the first
refresh.  loopTicks counts the completed iterations of the dispatcher loop,
to relate readiness to the first tick. -/
structure ClockState where
  otsysTime : Nat
  loopTicks : Nat
deriving DecidableEq

/-- The clock cache at process start: never refreshed, no loop iteration
run. -/
def initialClock : ClockState :=
  { otsysTime := 0, loopTicks := 0 }

/-- UPDATE_OTSYS_TIME: refresh the cache with the current time. -/
def updateOtsysTime (now : Nat) (s : ClockState) : ClockState :=
  { s with otsysTime := now }

/-- The first statement of Dispatcher.init refreshes the cached clock before
the loop task is handed to the pool. -/
def dispatcherInitPreLoop (now : Nat) (s : ClockState) : ClockState :=
  updateOtsysTime now s

/-- One iteration of the dispatcher loop refreshes the cache at its start. -/
def loopIteration (now : Nat) (s : ClockState) : ClockState :=
  { updateOtsysTime now s with loopTicks := s.loopTicks + 1 }

/-- DispatcherContext.isOn: the cached clock is not zero. -/
def isOn (s : ClockState) : Bool :=
  decide (s.otsysTime ≠ 0)

/-- Modelled from the spec: the type part of the thread-local context
marker. -/
inductive DispatcherType where
  | noneType
  | event
  | asyncEvent
  | scheduledEvent
  | cycleEvent
deriving DecidableEq

/-- Modelled from the spec: the thread-local context marker of a running
callable. -/
structure DispatcherContext where
  dtype : DispatcherType
  group : Nat
  taskName : Nat
deriving DecidableEq

/-- Modelled from the spec: a context is marked as async when the running
callable was dispatched as an async event. -/
def DispatcherContext.isAsync (c : DispatcherContext) : Bool :=
  c.dtype = DispatcherType.asyncEvent

/-- Outcome of one DispatcherContext.tryAddEvent call. -/
inductive TryAddOutcome where
  | returnedAtNullCheck
  | postedToInbox
  | ranInline
deriving DecidableEq

/-- DispatcherContext.tryAddEvent: a null callable returns at once; otherwise
the callable is posted through addEvent when the marker is async, and invoked
inline when it is not.  The callable is an Option: none stands for a null
std::function.  Returns the state (the inboxes are only touched on the posted
path) and what happened. -/
def tryAddEvent (c : DispatcherContext) (i : Nat) (f : Option Task)
    (st : DpState) : DpState × TryAddOutcome :=
  match f with
  | none => (st, TryAddOutcome.returnedAtNullCheck)
  | some t =>
    if c.isAsync then (addEvent i t st, TryAddOutcome.postedToInbox)
    else (st, TryAddOutcome.ranInline)

/-!  Derived views and predicates used by the statements. -/

/-- The firing walk of a state at a cached now, with the state's own registry,
id-map, cancel set and inboxes. -/
def walkOf (now : Nat) (st : DpState) :
    List STask × List Nat × List ThreadTask × List TraceEv :=
  walkSched now st.cancelled st.scheduledTasks st.scheduledTasksRef st.threads

/-- The state right after the firing walk of executeScheduledEvents. -/
def afterWalk (now : Nat) (st : DpState) : DpState :=
  { st with
    scheduledTasks := (walkOf now st).1
    scheduledTasksRef := (walkOf now st).2.1
    threads := (walkOf now st).2.2.1 }

/-- The scheduled sequence of the inbox of the current thread. -/
def headScheds (ths : List ThreadTask) : List STask :=
  (ths.headD emptyThreadTask).scheduledTasks

/-- The part of the registry the firing walk processes: the longest due front
of the registry list, up to the first task whose deadline is after now. -/
def firedPart (now : Nat) (sched : List STask) : List STask :=
  sched.takeWhile (fun t => decide (t.time ≤ now))

/-- A fired task is put back through the inbox exactly when its latch is not
set, its invocation returned true and it is cyclic. -/
def rescheduledPred (canc : List Nat) (t : STask) : Bool :=
  decide (t.sid ∉ canc) && t.execOk && t.cycle

/-- Ids the firing walk erases from the id-map, in walk order. -/
def removedSids (now : Nat) (canc : List Nat) (sched : List STask) : List Nat :=
  ((firedPart now sched).filter (fun t => !(rescheduledPred canc t))).map STask.sid

/-- Erase a batch of keys from a key list, in order. -/
def eraseAll (ref : List Nat) (sids : List Nat) : List Nat :=
  sids.foldl (fun r s => r.erase s) ref

/-- The trace events that are invocations of a callable. -/
def isInvoke : TraceEv → Bool
  | .run _ _ => true
  | .runSched _ => true
  | .ctxReset => false

/-- The trace events that are invocations run by the stage of group g. -/
def isRunInGroup (g : Nat) : TraceEv → Bool
  | .run _ g2 => decide (g2 = g)
  | _ => false

/-- Helper of resetSeparated: the flag records whether an invocation has been
seen with no context reset after it yet. -/
def resetSeparatedAux : List TraceEv → Bool → Bool
  | [], _ => true
  | TraceEv.ctxReset :: rest, _ => resetSeparatedAux rest false
  | TraceEv.run _ _ :: rest, pending => !pending && resetSeparatedAux rest true
  | TraceEv.runSched _ :: rest, pending => !pending && resetSeparatedAux rest true

/-- Whether a trace has a context reset between every two consecutive
invocations. -/
def resetSeparated (tr : List TraceEv) : Bool :=
  resetSeparatedAux tr false

/-- Event a comes strictly before event b somewhere in the trace: the trace
splits into a part holding a followed by a part holding b. -/
def SeqBefore (a b : TraceEv) (l : List TraceEv) : Prop :=
  ∃ l1 l2, l = l1 ++ l2 ∧ a ∈ l1 ∧ b ∈ l2

/-- The registry invariant exactly as the specification states it: every
entry of the id-map has a live counterpart in the ordered set and every
element of the ordered set has an entry in the id-map. -/
def refSchedMatched (st : DpState) : Prop :=
  (∀ id ∈ st.scheduledTasksRef, ∃ t ∈ st.scheduledTasks, t.sid = id) ∧
  (∀ t ∈ st.scheduledTasks, t.sid ∈ st.scheduledTasksRef)

instance (st : DpState) : Decidable (refSchedMatched st) := by
  unfold refSchedMatched; infer_instance

/-- Ids of a list of scheduled tasks. -/
def sidsOf (l : List STask) : List Nat :=
  l.map STask.sid

/-- The corrected registry invariant over its components: the id-map keys are
free of duplicates, the scheduled-task ids across the registry and the
inboxes are globally unique, every id-map entry has a counterpart in the
registry or in an inbox, and every scheduled task of the registry or of an
inbox has an id-map entry unless its cancel latch is set. -/
def regInvParts (sched : List STask) (ref canc : List Nat) (tscheds : List STask) : Prop :=
  ref.Nodup ∧
  (sidsOf (sched ++ tscheds)).Nodup ∧
  (∀ id ∈ ref, (∃ t ∈ sched, t.sid = id) ∨ (∃ t ∈ tscheds, t.sid = id)) ∧
  (∀ t ∈ sched, t.sid ∈ ref ∨ t.sid ∈ canc) ∧
  (∀ t ∈ tscheds, t.sid ∈ ref ∨ t.sid ∈ canc)

instance (sched : List STask) (ref canc : List Nat) (tscheds : List STask) :
    Decidable (regInvParts sched ref canc tscheds) := by
  unfold regInvParts; infer_instance

/-- The corrected registry invariant of a dispatcher state. -/
def registryInv (st : DpState) : Prop :=
  regInvParts st.scheduledTasks st.scheduledTasksRef st.cancelled (flatScheds st.threads)

instance (st : DpState) : Decidable (registryInv st) := by
  unfold registryInv; infer_instance

/-- A scheduled-task id never seen by the state, as the monotonically
increasing id generator guarantees for a fresh submission. -/
def sidFresh (st : DpState) (s : Nat) : Prop :=
  s ∉ st.scheduledTasksRef ∧ s ∉ st.cancelled ∧
  s ∉ sidsOf (st.scheduledTasks ++ flatScheds st.threads)

instance (st : DpState) (s : Nat) : Decidable (sidFresh st s) := by
  unfold sidFresh; infer_instance

/-!  Concrete inputs used by counterexamples and witnesses. -/

/-- A pending scheduled task with id 1, due at time 10, not cyclic. -/
def sampleSched : STask :=
  { sid := 1, time := 10, period := 0, cycle := false, execOk := true, posts := [] }

/-- The state after one schedule call on the start state. -/
def afterScheduleState : DpState :=
  (scheduleEvent 0 sampleSched emptyState).1

/-- The state after the end-of-tick merge has moved the scheduled task into
the registry. -/
def afterMergeState : DpState :=
  mergeEvents afterScheduleState

/-- The state after a cancel of id 1 on the merged state. -/
def afterStopState : DpState :=
  stopEvent 1 afterMergeState

/-- A serial task that posts an async task for group ordinal 2 while it
runs. -/
def postsToGroupTwo : Task :=
  Task.mk 1 true [(2, Task.mk 2 true [])]

/-- A state whose serial array holds exactly the task posting to group 2. -/
def groupTwoState : DpState :=
  { emptyState with m_tasks := fun g => if g = 0 then [postsToGroupTwo] else [] }

/-- A state whose serial array holds two plain tasks. -/
def twoSerialState : DpState :=
  { emptyState with
    m_tasks := fun g => if g = 0 then [Task.mk 1 true [], Task.mk 2 true []] else [] }

/-- A state whose id-map holds two ids. -/
def stopWitnessState : DpState :=
  { emptyState with scheduledTasksRef := [1, 2] }

/-- A registry with three due tasks (one cyclic, one with a set latch, one
plain) and one future task. -/
def walkWitnessSched : List STask :=
  [ { sid := 1, time := 5, period := 4, cycle := true, execOk := true, posts := [] },
    { sid := 3, time := 6, period := 0, cycle := false, execOk := true, posts := [] },
    { sid := 2, time := 8, period := 0, cycle := false, execOk := true, posts := [] },
    { sid := 4, time := 20, period := 0, cycle := false, execOk := true, posts := [] } ]

/-- A serial task that posts an async task for GenericParallel and a serial
follow-up while it runs. -/
def serialPoster : Task :=
  Task.mk 1 true [(1, Task.mk 2 true []), (0, Task.mk 3 true [])]

/-- A state whose serial array holds exactly serialPoster. -/
def posterState : DpState :=
  { emptyState with m_tasks := fun g => if g = 0 then [serialPoster] else [] }

/-- A due scheduled task that posts an async task for GenericParallel. -/
def timerPoster : STask :=
  { sid := 7, time := 0, period := 0, cycle := false, execOk := true
    posts := [(1, Task.mk 9 true [])] }

/-- A state whose registry holds exactly timerPoster. -/
def timerState : DpState :=
  { emptyState with scheduledTasks := [timerPoster] }

/-!  Basic lemmas about inboxes and posting. -/

theorem flatTasks_nil (g : Nat) : flatTasks [] g = [] := rfl

theorem flatTasks_cons (ib : ThreadTask) (rest : List ThreadTask) (g : Nat) :
    flatTasks (ib :: rest) g = ib.tasks g ++ flatTasks rest g := by
  simp [flatTasks]

theorem flatScheds_nil : flatScheds [] = [] := rfl

theorem flatScheds_cons (ib : ThreadTask) (rest : List ThreadTask) :
    flatScheds (ib :: rest) = ib.scheduledTasks ++ flatScheds rest := by
  simp [flatScheds]

theorem post_scheduledTasks (ib : ThreadTask) (g : Nat) (t : Task) :
    (ib.post g t).scheduledTasks = ib.scheduledTasks := rfl

theorem postAll_cons (ib : ThreadTask) (p : Nat × Task) (ps : List (Nat × Task)) :
    ib.postAll (p :: ps) = (ib.post p.1 p.2).postAll ps := rfl

theorem postAll_scheduledTasks (ps : List (Nat × Task)) (ib : ThreadTask) :
    (ib.postAll ps).scheduledTasks = ib.scheduledTasks := by
  induction ps generalizing ib with
  | nil => rfl
  | cons p ps ih => rw [postAll_cons, ih, post_scheduledTasks]

theorem post_tasks_self (ib : ThreadTask) (g : Nat) (t : Task) :
    (ib.post g t).tasks g = ib.tasks g ++ [t] := by
  simp [ThreadTask.post]

theorem post_tasks_ne (ib : ThreadTask) (g g2 : Nat) (t : Task) (h : g2 ≠ g) :
    (ib.post g t).tasks g2 = ib.tasks g2 := by
  simp [ThreadTask.post, h]

theorem groupPosts_nil (g : Nat) : groupPosts g [] = [] := rfl

theorem groupPosts_cons_self (g : Nat) (t : Task) (ps : List (Nat × Task)) :
    groupPosts g ((g, t) :: ps) = t :: groupPosts g ps := by
  simp [groupPosts]

theorem groupPosts_cons_ne (g g2 : Nat) (t : Task) (ps : List (Nat × Task)) (h : g2 ≠ g) :
    groupPosts g ((g2, t) :: ps) = groupPosts g ps := by
  simp [groupPosts, h]

theorem postAll_tasks (ps : List (Nat × Task)) (ib : ThreadTask) (g : Nat) :
    (ib.postAll ps).tasks g = ib.tasks g ++ groupPosts g ps := by
  induction ps generalizing ib with
  | nil => simp [ThreadTask.postAll, groupPosts_nil]
  | cons p ps ih =>
    rw [postAll_cons, ih]
    by_cases h : p.1 = g
    · subst h
      rw [post_tasks_self]
      have : groupPosts p.1 ((p.1, p.2) :: ps) = p.2 :: groupPosts p.1 ps :=
        groupPosts_cons_self p.1 p.2 ps
      simp only [show ((p.1, p.2) : Nat × Task) = p from rfl] at this
      rw [this, List.append_assoc, List.singleton_append]
    · rw [post_tasks_ne ib p.1 g p.2 (by omega)]
      have : groupPosts g ((p.1, p.2) :: ps) = groupPosts g ps :=
        groupPosts_cons_ne g p.1 p.2 ps (by omega)
      simp only [show ((p.1, p.2) : Nat × Task) = p from rfl] at this
      rw [this]

theorem mem_groupPosts (g : Nat) (t : Task) (ps : List (Nat × Task))
    (h : (g, t) ∈ ps) : t ∈ groupPosts g ps := by
  simp only [groupPosts, List.mem_map, List.mem_filter]
  exact ⟨(g, t), ⟨h, by simp⟩, rfl⟩

theorem flatScheds_updateFirst (f : ThreadTask → ThreadTask)
    (hf : ∀ ib, (f ib).scheduledTasks = ib.scheduledTasks) (ths : List ThreadTask) :
    flatScheds (updateFirst f ths) = flatScheds ths := by
  cases ths with
  | nil => simp [updateFirst, flatScheds, hf, emptyThreadTask]
  | cons ib rest => simp [updateFirst, flatScheds, hf]

theorem headScheds_updateFirst (f : ThreadTask → ThreadTask)
    (hf : ∀ ib, (f ib).scheduledTasks = ib.scheduledTasks) (ths : List ThreadTask) :
    headScheds (updateFirst f ths) = headScheds ths := by
  cases ths with
  | nil => simp [updateFirst, headScheds, hf, emptyThreadTask]
  | cons ib rest => simp [updateFirst, headScheds, hf]

theorem flatScheds_updateFirst_append (x : STask) (ths : List ThreadTask) :
    (flatScheds (updateFirst
      (fun ib => { ib with scheduledTasks := ib.scheduledTasks ++ [x] }) ths)).Perm
      (x :: flatScheds ths) := by
  cases ths with
  | nil => simp [updateFirst, flatScheds, emptyThreadTask]
  | cons ib rest =>
    simp only [updateFirst, flatScheds_cons]
    have h1 : ib.scheduledTasks ++ [x] ++ flatScheds rest =
        ib.scheduledTasks ++ x :: flatScheds rest := by
      rw [List.append_assoc, List.singleton_append]
    rw [h1]
    exact List.perm_middle

theorem headScheds_updateFirst_append (x : STask) (ths : List ThreadTask) :
    headScheds (updateFirst
      (fun ib => { ib with scheduledTasks := ib.scheduledTasks ++ [x] }) ths) =
      headScheds ths ++ [x] := by
  cases ths with
  | nil => simp [updateFirst, headScheds, emptyThreadTask]
  | cons ib rest => simp [updateFirst, headScheds]

theorem flatScheds_updateAtCreate_append (i : Nat) (x : STask) (ths : List ThreadTask) :
    (flatScheds (updateAtCreate i
      (fun ib => { ib with scheduledTasks := ib.scheduledTasks ++ [x] }) ths)).Perm
      (x :: flatScheds ths) := by
  induction i generalizing ths with
  | zero =>
    cases ths with
    | nil => simp [updateAtCreate, flatScheds, emptyThreadTask]
    | cons ib rest =>
      simp only [updateAtCreate, flatScheds_cons]
      have h1 : ib.scheduledTasks ++ [x] ++ flatScheds rest =
          ib.scheduledTasks ++ x :: flatScheds rest := by
        rw [List.append_assoc, List.singleton_append]
      rw [h1]
      exact List.perm_middle
  | succ i ih =>
    cases ths with
    | nil =>
      simp only [updateAtCreate, flatScheds_cons]
      simpa [emptyThreadTask] using ih []
    | cons ib rest =>
      simp only [updateAtCreate, flatScheds_cons]
      exact ((ih rest).append_left ib.scheduledTasks).trans List.perm_middle

theorem flatTasks_updateFirst_mono (f : ThreadTask → ThreadTask) (g : Nat)
    (hf : ∀ ib x, x ∈ ib.tasks g → x ∈ (f ib).tasks g) (ths : List ThreadTask)
    (t : Task) (h : t ∈ flatTasks ths g) : t ∈ flatTasks (updateFirst f ths) g := by
  cases ths with
  | nil => simp [flatTasks_nil] at h
  | cons ib rest =>
    simp only [updateFirst, flatTasks_cons] at h ⊢
    rcases List.mem_append.mp h with h1 | h2
    · exact List.mem_append.mpr (Or.inl (hf ib t h1))
    · exact List.mem_append.mpr (Or.inr h2)

theorem flatTasks_updateFirst_insert (f : ThreadTask → ThreadTask) (g : Nat) (t : Task)
    (hf : ∀ ib, t ∈ (f ib).tasks g) (ths : List ThreadTask) :
    t ∈ flatTasks (updateFirst f ths) g := by
  cases ths with
  | nil => simpa [updateFirst, flatTasks] using hf emptyThreadTask
  | cons ib rest =>
    simp only [updateFirst, flatTasks_cons]
    exact List.mem_append.mpr (Or.inl (hf ib))

/-!  Lemmas about the serial and parallel execution loops. -/

theorem runSerialLoop_trace (ts : List Task) (ths : List ThreadTask) :
    (runSerialLoop ts ths).2 = ts.map (fun t => TraceEv.run t.tid 0) := by
  induction ts generalizing ths with
  | nil => rfl
  | cons t rest ih => simp [runSerialLoop, ih]

theorem runSerialLoop_flatScheds (ts : List Task) (ths : List ThreadTask) :
    flatScheds (runSerialLoop ts ths).1 = flatScheds ths := by
  induction ts generalizing ths with
  | nil => rfl
  | cons t rest ih =>
    simp only [runSerialLoop]
    rw [ih, flatScheds_updateFirst _ (fun ib => postAll_scheduledTasks t.posts ib)]

theorem runSerialLoop_headScheds (ts : List Task) (ths : List ThreadTask) :
    headScheds (runSerialLoop ts ths).1 = headScheds ths := by
  induction ts generalizing ths with
  | nil => rfl
  | cons t rest ih =>
    simp only [runSerialLoop]
    rw [ih, headScheds_updateFirst _ (fun ib => postAll_scheduledTasks t.posts ib)]

theorem runSerialLoop_tasks_mono (ts : List Task) (ths : List ThreadTask) (g : Nat)
    (t : Task) (h : t ∈ flatTasks ths g) : t ∈ flatTasks (runSerialLoop ts ths).1 g := by
  induction ts generalizing ths with
  | nil => exact h
  | cons s rest ih =>
    simp only [runSerialLoop]
    exact ih _ (flatTasks_updateFirst_mono _ g
      (fun ib x hx => by rw [postAll_tasks]; exact List.mem_append.mpr (Or.inl hx)) ths t h)

theorem runSerialLoop_tasks_insert (ts : List Task) (ths : List ThreadTask) (g : Nat)
    (t s : Task) (hs : s ∈ ts) (hp : (g, t) ∈ s.posts) :
    t ∈ flatTasks (runSerialLoop ts ths).1 g := by
  induction ts generalizing ths with
  | nil => cases hs
  | cons s0 rest ih =>
    simp only [runSerialLoop]
    rcases List.mem_cons.mp hs with h0 | h0
    · subst h0
      exact runSerialLoop_tasks_mono rest _ g t
        (flatTasks_updateFirst_insert _ g t
          (fun ib => by
            rw [postAll_tasks]
            exact List.mem_append.mpr (Or.inr (mem_groupPosts g t s.posts hp))) ths)
    · exact ih _ h0

theorem runParallelLoop_trace (g : Nat) (ts : List Task) (ths : List ThreadTask) :
    (runParallelLoop g ts ths).2 =
      ts.flatMap (fun t => [TraceEv.run t.tid g, TraceEv.ctxReset]) := by
  induction ts generalizing ths with
  | nil => rfl
  | cons t rest ih => simp [runParallelLoop, ih]

theorem runParallelLoop_flatScheds (g : Nat) (ts : List Task) (ths : List ThreadTask) :
    flatScheds (runParallelLoop g ts ths).1 = flatScheds ths := by
  induction ts generalizing ths with
  | nil => rfl
  | cons t rest ih =>
    simp only [runParallelLoop]
    rw [ih, flatScheds_updateFirst _ (fun ib => postAll_scheduledTasks t.posts ib)]

theorem runParallelLoop_headScheds (g : Nat) (ts : List Task) (ths : List ThreadTask) :
    headScheds (runParallelLoop g ts ths).1 = headScheds ths := by
  induction ts generalizing ths with
  | nil => rfl
  | cons t rest ih =>
    simp only [runParallelLoop]
    rw [ih, headScheds_updateFirst _ (fun ib => postAll_scheduledTasks t.posts ib)]

theorem runParallelLoop_tasks_mono (gg : Nat) (ts : List Task) (ths : List ThreadTask)
    (g : Nat) (t : Task) (h : t ∈ flatTasks ths g) :
    t ∈ flatTasks (runParallelLoop gg ts ths).1 g := by
  induction ts generalizing ths with
  | nil => exact h
  | cons s rest ih =>
    simp only [runParallelLoop]
    exact ih _ (flatTasks_updateFirst_mono _ g
      (fun ib x hx => by rw [postAll_tasks]; exact List.mem_append.mpr (Or.inl hx)) ths t h)

/-!  Field lemmas for the execution stages. -/

theorem executeSerialEvents_sched (st : DpState) :
    (executeSerialEvents st).1.scheduledTasks = st.scheduledTasks := rfl

theorem executeSerialEvents_ref (st : DpState) :
    (executeSerialEvents st).1.scheduledTasksRef = st.scheduledTasksRef := rfl

theorem executeSerialEvents_cancelled (st : DpState) :
    (executeSerialEvents st).1.cancelled = st.cancelled := rfl

theorem executeSerialEvents_mtasks_zero (st : DpState) :
    (executeSerialEvents st).1.m_tasks 0 = [] := by
  simp [executeSerialEvents]

theorem executeSerialEvents_mtasks_ne (st : DpState) (g : Nat) (h : g ≠ 0) :
    (executeSerialEvents st).1.m_tasks g = st.m_tasks g := by
  simp [executeSerialEvents, h]

theorem executeSerialEvents_trace (st : DpState) :
    (executeSerialEvents st).2 =
      (st.m_tasks 0).map (fun t => TraceEv.run t.tid 0) ++ [TraceEv.ctxReset] := by
  simp [executeSerialEvents, runSerialLoop_trace]

theorem executeSerialEvents_flatScheds (st : DpState) :
    flatScheds (executeSerialEvents st).1.threads = flatScheds st.threads := by
  simp [executeSerialEvents, runSerialLoop_flatScheds]

theorem executeSerialEvents_headScheds (st : DpState) :
    headScheds (executeSerialEvents st).1.threads = headScheds st.threads := by
  simp [executeSerialEvents, runSerialLoop_headScheds]

theorem executeSerialEvents_tasks_mono (st : DpState) (g : Nat) (t : Task)
    (h : t ∈ flatTasks st.threads g) :
    t ∈ flatTasks (executeSerialEvents st).1.threads g := by
  simpa [executeSerialEvents] using runSerialLoop_tasks_mono (st.m_tasks 0) st.threads g t h

theorem executeSerialEvents_tasks_insert (st : DpState) (g : Nat) (t s : Task)
    (hs : s ∈ st.m_tasks 0) (hp : (g, t) ∈ s.posts) :
    t ∈ flatTasks (executeSerialEvents st).1.threads g := by
  simpa [executeSerialEvents] using
    runSerialLoop_tasks_insert (st.m_tasks 0) st.threads g t s hs hp

theorem executeParallelEvents_sched (gg : Nat) (st : DpState) :
    (executeParallelEvents gg st).1.scheduledTasks = st.scheduledTasks := rfl

theorem executeParallelEvents_ref (gg : Nat) (st : DpState) :
    (executeParallelEvents gg st).1.scheduledTasksRef = st.scheduledTasksRef := rfl

theorem executeParallelEvents_cancelled (gg : Nat) (st : DpState) :
    (executeParallelEvents gg st).1.cancelled = st.cancelled := rfl

theorem executeParallelEvents_mtasks_self (gg : Nat) (st : DpState) :
    (executeParallelEvents gg st).1.m_tasks gg = [] := by
  simp [executeParallelEvents]

theorem executeParallelEvents_mtasks_ne (gg : Nat) (st : DpState) (g : Nat) (h : g ≠ gg) :
    (executeParallelEvents gg st).1.m_tasks g = st.m_tasks g := by
  simp [executeParallelEvents, h]

theorem executeParallelEvents_trace (gg : Nat) (st : DpState) :
    (executeParallelEvents gg st).2 =
      (st.m_tasks gg).flatMap (fun t => [TraceEv.run t.tid gg, TraceEv.ctxReset]) := by
  simp [executeParallelEvents, runParallelLoop_trace]

theorem executeParallelEvents_flatScheds (gg : Nat) (st : DpState) :
    flatScheds (executeParallelEvents gg st).1.threads = flatScheds st.threads := by
  simp [executeParallelEvents, runParallelLoop_flatScheds]

theorem executeParallelEvents_headScheds (gg : Nat) (st : DpState) :
    headScheds (executeParallelEvents gg st).1.threads = headScheds st.threads := by
  simp [executeParallelEvents, runParallelLoop_headScheds]

theorem executeParallelEvents_tasks_mono (gg : Nat) (st : DpState) (g : Nat) (t : Task)
    (h : t ∈ flatTasks st.threads g) :
    t ∈ flatTasks (executeParallelEvents gg st).1.threads g := by
  simpa [executeParallelEvents] using
    runParallelLoop_tasks_mono gg (st.m_tasks gg) st.threads g t h

/-!  Lemmas about the merges. -/

theorem flatScheds_map (f : ThreadTask → ThreadTask)
    (hf : ∀ ib, (f ib).scheduledTasks = ib.scheduledTasks) (l : List ThreadTask) :
    flatScheds (l.map f) = flatScheds l := by
  induction l with
  | nil => rfl
  | cons ib rest ih => simp [flatScheds_cons, hf, ih]

theorem flatScheds_map_nil (f : ThreadTask → ThreadTask)
    (hf : ∀ ib, (f ib).scheduledTasks = []) (l : List ThreadTask) :
    flatScheds (l.map f) = [] := by
  induction l with
  | nil => rfl
  | cons ib rest ih => simp [flatScheds_cons, hf, ih]

theorem headScheds_map (f : ThreadTask → ThreadTask)
    (hf : ∀ ib, (f ib).scheduledTasks = ib.scheduledTasks) (l : List ThreadTask) :
    headScheds (l.map f) = headScheds l := by
  cases l with
  | nil => rfl
  | cons ib rest => simp [headScheds, hf]

theorem flatTasks_map_eq (f : ThreadTask → ThreadTask) (g : Nat)
    (hf : ∀ ib, (f ib).tasks g = ib.tasks g) (l : List ThreadTask) :
    flatTasks (l.map f) g = flatTasks l g := by
  induction l with
  | nil => rfl
  | cons ib rest ih => simp [flatTasks_cons, hf, ih]

theorem flatTasks_map_nil (f : ThreadTask → ThreadTask) (g : Nat)
    (hf : ∀ ib, (f ib).tasks g = []) (l : List ThreadTask) :
    flatTasks (l.map f) g = [] := by
  induction l with
  | nil => rfl
  | cons ib rest ih => simp [flatTasks_cons, hf, ih]

theorem mergeAsyncEvents_sched (last : Nat) (st : DpState) :
    (mergeAsyncEvents last st).scheduledTasks = st.scheduledTasks := rfl

theorem mergeAsyncEvents_ref (last : Nat) (st : DpState) :
    (mergeAsyncEvents last st).scheduledTasksRef = st.scheduledTasksRef := rfl

theorem mergeAsyncEvents_cancelled (last : Nat) (st : DpState) :
    (mergeAsyncEvents last st).cancelled = st.cancelled := rfl

theorem mergeAsyncEvents_mtasks_in (last : Nat) (st : DpState) (g : Nat)
    (h1 : 1 ≤ g) (h2 : g < last) :
    (mergeAsyncEvents last st).m_tasks g = st.m_tasks g ++ allInboxTasks st g := by
  simp [mergeAsyncEvents, h1, h2]

theorem mergeAsyncEvents_mtasks_out (last : Nat) (st : DpState) (g : Nat)
    (h : ¬(1 ≤ g ∧ g < last)) :
    (mergeAsyncEvents last st).m_tasks g = st.m_tasks g := by
  simp only [mergeAsyncEvents]
  rw [if_neg h]

theorem mergeAsyncEvents_flatScheds (last : Nat) (st : DpState) :
    flatScheds (mergeAsyncEvents last st).threads = flatScheds st.threads :=
  flatScheds_map (fun ib =>
    { ib with tasks := fun g => if 1 ≤ g ∧ g < last then [] else ib.tasks g })
    (fun _ => rfl) st.threads

theorem mergeAsyncEvents_headScheds (last : Nat) (st : DpState) :
    headScheds (mergeAsyncEvents last st).threads = headScheds st.threads :=
  headScheds_map (fun ib =>
    { ib with tasks := fun g => if 1 ≤ g ∧ g < last then [] else ib.tasks g })
    (fun _ => rfl) st.threads

theorem mergeAsyncEvents_inbox0 (last : Nat) (st : DpState) :
    flatTasks (mergeAsyncEvents last st).threads 0 = flatTasks st.threads 0 :=
  flatTasks_map_eq (fun ib =>
    { ib with tasks := fun g => if 1 ≤ g ∧ g < last then [] else ib.tasks g })
    0 (fun _ => by simp) st.threads

theorem mergeEvents_mtasks_zero (st : DpState) :
    (mergeEvents st).m_tasks 0 = st.m_tasks 0 ++ allInboxTasks st 0 := by
  simp [mergeEvents]

theorem mergeEvents_mtasks_ne (st : DpState) (g : Nat) (h : g ≠ 0) :
    (mergeEvents st).m_tasks g = st.m_tasks g := by
  simp [mergeEvents, h]

theorem mergeEvents_sched (st : DpState) :
    (mergeEvents st).scheduledTasks = insertAllSched (threadScheds st) st.scheduledTasks := rfl

theorem mergeEvents_ref (st : DpState) :
    (mergeEvents st).scheduledTasksRef = st.scheduledTasksRef := rfl

theorem mergeEvents_cancelled (st : DpState) :
    (mergeEvents st).cancelled = st.cancelled := rfl

theorem mergeEvents_flatScheds (st : DpState) :
    flatScheds (mergeEvents st).threads = [] :=
  flatScheds_map_nil (fun ib =>
    { ib with tasks := fun g => if g = 0 then [] else ib.tasks g, scheduledTasks := [] })
    (fun _ => rfl) st.threads

theorem insertSched_perm (t : STask) (l : List STask) :
    (insertSched t l).Perm (t :: l) := by
  induction l with
  | nil => exact List.Perm.refl _
  | cons x xs ih =>
    simp only [insertSched]
    by_cases h : schedBefore t x
    · simp [h]
    · simp only [h, if_false, Bool.false_eq_true]
      exact (ih.cons x).trans (List.Perm.swap t x xs)

theorem insertAllSched_cons (t : STask) (ts : List STask) (l : List STask) :
    insertAllSched (t :: ts) l = insertAllSched ts (insertSched t l) := rfl

theorem insertAllSched_perm (ts : List STask) (l : List STask) :
    (insertAllSched ts l).Perm (ts ++ l) := by
  induction ts generalizing l with
  | nil => exact List.Perm.refl _
  | cons t ts ih =>
    rw [insertAllSched_cons]
    exact ((ih (insertSched t l)).trans
      (((insertSched_perm t l).append_left ts).trans List.perm_middle))

/-!  Lemmas about the staged execution loop. -/

theorem execFrom_zero (last g : Nat) (st : DpState) : execFrom last 0 g st = (st, []) := rfl

theorem execFrom_succ (last fuel g : Nat) (st : DpState) :
    execFrom last (fuel + 1) g st =
      (if (st.m_tasks g).isEmpty then (st, [])
       else if g = 0 then
        ((execFrom last fuel (g + 1) (mergeAsyncEvents last (executeSerialEvents st).1)).1,
         (executeSerialEvents st).2 ++
           (execFrom last fuel (g + 1) (mergeAsyncEvents last (executeSerialEvents st).1)).2)
       else
        ((execFrom last fuel (g + 1) (executeParallelEvents g st).1).1,
         (executeParallelEvents g st).2 ++
           (execFrom last fuel (g + 1) (executeParallelEvents g st).1).2)) := rfl

theorem execFrom_succ_empty (last fuel g : Nat) (st : DpState)
    (h : (st.m_tasks g).isEmpty = true) : execFrom last (fuel + 1) g st = (st, []) := by
  rw [execFrom_succ]
  simp [h]

theorem execFrom_succ_serial (last fuel : Nat) (st : DpState)
    (h : (st.m_tasks 0).isEmpty = false) :
    execFrom last (fuel + 1) 0 st =
      ((execFrom last fuel 1 (mergeAsyncEvents last (executeSerialEvents st).1)).1,
       (executeSerialEvents st).2 ++
         (execFrom last fuel 1 (mergeAsyncEvents last (executeSerialEvents st).1)).2) := by
  rw [execFrom_succ]
  simp [h]

theorem execFrom_succ_par (last fuel g : Nat) (st : DpState) (hg : g ≠ 0)
    (h : (st.m_tasks g).isEmpty = false) :
    execFrom last (fuel + 1) g st =
      ((execFrom last fuel (g + 1) (executeParallelEvents g st).1).1,
       (executeParallelEvents g st).2 ++
         (execFrom last fuel (g + 1) (executeParallelEvents g st).1).2) := by
  rw [execFrom_succ]
  simp [h, hg]

theorem execFrom_fields (last : Nat) (fuel : Nat) :
    ∀ (g : Nat) (st : DpState),
    (execFrom last fuel g st).1.scheduledTasks = st.scheduledTasks ∧
    (execFrom last fuel g st).1.scheduledTasksRef = st.scheduledTasksRef ∧
    (execFrom last fuel g st).1.cancelled = st.cancelled ∧
    flatScheds (execFrom last fuel g st).1.threads = flatScheds st.threads ∧
    headScheds (execFrom last fuel g st).1.threads = headScheds st.threads := by
  induction fuel with
  | zero => exact fun g st => ⟨rfl, rfl, rfl, rfl, rfl⟩
  | succ fuel ih =>
    intro g st
    cases he : (st.m_tasks g).isEmpty with
    | true =>
      rw [execFrom_succ_empty last fuel g st he]
      exact ⟨rfl, rfl, rfl, rfl, rfl⟩
    | false =>
      by_cases hg : g = 0
      · subst hg
        rw [execFrom_succ_serial last fuel st he]
        refine ⟨?_, ?_, ?_, ?_, ?_⟩
        · rw [(ih 1 _).1, mergeAsyncEvents_sched, executeSerialEvents_sched]
        · rw [(ih 1 _).2.1, mergeAsyncEvents_ref, executeSerialEvents_ref]
        · rw [(ih 1 _).2.2.1, mergeAsyncEvents_cancelled, executeSerialEvents_cancelled]
        · rw [(ih 1 _).2.2.2.1, mergeAsyncEvents_flatScheds, executeSerialEvents_flatScheds]
        · rw [(ih 1 _).2.2.2.2, mergeAsyncEvents_headScheds, executeSerialEvents_headScheds]
      · rw [execFrom_succ_par last fuel g st hg he]
        refine ⟨?_, ?_, ?_, ?_, ?_⟩
        · rw [(ih (g + 1) _).1, executeParallelEvents_sched]
        · rw [(ih (g + 1) _).2.1, executeParallelEvents_ref]
        · rw [(ih (g + 1) _).2.2.1, executeParallelEvents_cancelled]
        · rw [(ih (g + 1) _).2.2.2.1, executeParallelEvents_flatScheds]
        · rw [(ih (g + 1) _).2.2.2.2, executeParallelEvents_headScheds]

theorem execFrom_inbox0_mono (last : Nat) (fuel : Nat) :
    ∀ (g : Nat) (st : DpState) (t : Task), t ∈ flatTasks st.threads 0 →
    t ∈ flatTasks (execFrom last fuel g st).1.threads 0 := by
  induction fuel with
  | zero => exact fun g st t h => h
  | succ fuel ih =>
    intro g st t h
    cases he : (st.m_tasks g).isEmpty with
    | true =>
      rw [execFrom_succ_empty last fuel g st he]
      exact h
    | false =>
      by_cases hg : g = 0
      · subst hg
        rw [execFrom_succ_serial last fuel st he]
        apply ih
        rw [mergeAsyncEvents_inbox0]
        exact executeSerialEvents_tasks_mono st 0 t h
      · rw [execFrom_succ_par last fuel g st hg he]
        exact ih _ _ t (executeParallelEvents_tasks_mono g st 0 t h)

theorem execFrom_events_ge (last : Nat) (fuel : Nat) :
    ∀ (g : Nat) (st : DpState), 1 ≤ g →
    ∀ ev ∈ (execFrom last fuel g st).2,
      ev = TraceEv.ctxReset ∨ ∃ tid g2, g ≤ g2 ∧ ev = TraceEv.run tid g2 := by
  induction fuel with
  | zero => intro g st hg ev hev; cases hev
  | succ fuel ih =>
    intro g st hg ev hev
    cases he : (st.m_tasks g).isEmpty with
    | true =>
      rw [execFrom_succ_empty last fuel g st he] at hev
      cases hev
    | false =>
      have hg0 : g ≠ 0 := by omega
      rw [execFrom_succ_par last fuel g st hg0 he] at hev
      rcases List.mem_append.mp hev with h1 | h1
      · rw [executeParallelEvents_trace] at h1
        rcases List.mem_flatMap.mp h1 with ⟨t, _, hin⟩
        rcases List.mem_cons.mp hin with h2 | h2
        · exact Or.inr ⟨t.tid, g, le_refl g, h2⟩
        · rcases List.mem_cons.mp h2 with h3 | h3
          · exact Or.inl h3
          · cases h3
      · rcases ih (g + 1) _ (by omega) ev h1 with h2 | ⟨tid, g2, hle, hev2⟩
        · exact Or.inl h2
        · exact Or.inr ⟨tid, g2, by omega, hev2⟩

theorem execFrom_run_mem (last : Nat) (fuel : Nat) (g : Nat) (st : DpState) (t : Task)
    (ht : t ∈ st.m_tasks g) (hg : g ≠ 0) (hf : 1 ≤ fuel) :
    TraceEv.run t.tid g ∈ (execFrom last fuel g st).2 := by
  cases fuel with
  | zero => omega
  | succ fuel =>
    have he : (st.m_tasks g).isEmpty = false := by
      cases hm : st.m_tasks g with
      | nil => rw [hm] at ht; cases ht
      | cons a l => rfl
    rw [execFrom_succ_par last fuel g st hg he]
    apply List.mem_append.mpr
    left
    rw [executeParallelEvents_trace]
    exact List.mem_flatMap.mpr ⟨t, ht, List.mem_cons_self _ _⟩

/-!  Lemmas about the scheduled-task firing walk. -/

theorem walkSched_nil (now : Nat) (canc ref : List Nat) (ths : List ThreadTask) :
    walkSched now canc [] ref ths = ([], ref, ths, []) := rfl

theorem walkSched_cons (now : Nat) (canc : List Nat) (t : STask) (rest : List STask)
    (ref : List Nat) (ths : List ThreadTask) :
    walkSched now canc (t :: rest) ref ths =
      (if now < t.time then (t :: rest, ref, ths, ([] : List TraceEv))
       else if t.sid ∈ canc then walkSched now canc rest (ref.erase t.sid) ths
       else if t.execOk && t.cycle then
         ((walkSched now canc rest ref
             (updateFirst (fun ib =>
               { ib with scheduledTasks := ib.scheduledTasks ++ [t.updateTime] })
               (updateFirst (fun ib => ib.postAll t.posts) ths))).1,
          (walkSched now canc rest ref
             (updateFirst (fun ib =>
               { ib with scheduledTasks := ib.scheduledTasks ++ [t.updateTime] })
               (updateFirst (fun ib => ib.postAll t.posts) ths))).2.1,
          (walkSched now canc rest ref
             (updateFirst (fun ib =>
               { ib with scheduledTasks := ib.scheduledTasks ++ [t.updateTime] })
               (updateFirst (fun ib => ib.postAll t.posts) ths))).2.2.1,
          TraceEv.runSched t.sid ::
            (walkSched now canc rest ref
               (updateFirst (fun ib =>
                 { ib with scheduledTasks := ib.scheduledTasks ++ [t.updateTime] })
                 (updateFirst (fun ib => ib.postAll t.posts) ths))).2.2.2)
       else
         ((walkSched now canc rest (ref.erase t.sid)
             (updateFirst (fun ib => ib.postAll t.posts) ths)).1,
          (walkSched now canc rest (ref.erase t.sid)
             (updateFirst (fun ib => ib.postAll t.posts) ths)).2.1,
          (walkSched now canc rest (ref.erase t.sid)
             (updateFirst (fun ib => ib.postAll t.posts) ths)).2.2.1,
          TraceEv.runSched t.sid ::
            (walkSched now canc rest (ref.erase t.sid)
               (updateFirst (fun ib => ib.postAll t.posts) ths)).2.2.2)) := rfl

theorem firedPart_nil (now : Nat) : firedPart now [] = [] := rfl

theorem firedPart_cons_due (now : Nat) (t : STask) (rest : List STask)
    (h : t.time ≤ now) : firedPart now (t :: rest) = t :: firedPart now rest := by
  simp [firedPart, List.takeWhile_cons, h]

theorem firedPart_cons_future (now : Nat) (t : STask) (rest : List STask)
    (h : now < t.time) : firedPart now (t :: rest) = [] := by
  simp only [firedPart, List.takeWhile_cons]
  rw [decide_eq_false (by omega)]
  rfl

theorem eraseAll_nil (ref : List Nat) : eraseAll ref [] = ref := rfl

theorem eraseAll_cons (ref : List Nat) (s : Nat) (ss : List Nat) :
    eraseAll ref (s :: ss) = eraseAll (ref.erase s) ss := rfl

theorem eraseAll_mem (sids : List Nat) :
    ∀ (ref : List Nat), ref.Nodup → ∀ id : Nat,
    (id ∈ eraseAll ref sids ↔ id ∈ ref ∧ id ∉ sids) := by
  induction sids with
  | nil => intro ref _ id; simp [eraseAll_nil]
  | cons s ss ih =>
    intro ref href id
    rw [eraseAll_cons]
    rw [ih (ref.erase s) (href.erase s) id]
    rw [href.mem_erase_iff]
    simp only [List.mem_cons]
    constructor
    · rintro ⟨⟨h1, h2⟩, h3⟩
      exact ⟨h2, fun hc => hc.elim (fun he => h1 he) h3⟩
    · rintro ⟨h1, h2⟩
      exact ⟨⟨fun he => h2 (Or.inl he), h1⟩, fun hc => h2 (Or.inr hc)⟩

theorem eraseAll_nodup (sids : List Nat) :
    ∀ ref : List Nat, ref.Nodup → (eraseAll ref sids).Nodup := by
  induction sids with
  | nil => exact fun ref h => h
  | cons s ss ih => exact fun ref h => ih (ref.erase s) (h.erase s)

theorem walkSched_remaining (now : Nat) (canc : List Nat) :
    ∀ (sched : List STask) (ref : List Nat) (ths : List ThreadTask),
    (walkSched now canc sched ref ths).1 =
      sched.dropWhile (fun t => decide (t.time ≤ now)) := by
  intro sched
  induction sched with
  | nil => intro ref ths; rfl
  | cons t rest ih =>
    intro ref ths
    rw [walkSched_cons]
    by_cases h1 : now < t.time
    · rw [if_pos h1]
      simp only [List.dropWhile_cons]
      rw [decide_eq_false (by omega)]
      rfl
    · rw [if_neg h1]
      have hd : (fun t : STask => decide (t.time ≤ now)) t = true := by
        simp only [decide_eq_true_eq]; omega
      simp only [List.dropWhile_cons, hd, if_true]
      by_cases h2 : t.sid ∈ canc
      · rw [if_pos h2]; exact ih _ _
      · rw [if_neg h2]
        by_cases h3 : t.execOk && t.cycle
        · rw [if_pos h3]; exact ih _ _
        · rw [if_neg h3]; exact ih _ _

theorem walkSched_ref (now : Nat) (canc : List Nat) :
    ∀ (sched : List STask) (ref : List Nat) (ths : List ThreadTask),
    (walkSched now canc sched ref ths).2.1 =
      eraseAll ref (removedSids now canc sched) := by
  intro sched
  induction sched with
  | nil => intro ref ths; rfl
  | cons t rest ih =>
    intro ref ths
    rw [walkSched_cons]
    by_cases h1 : now < t.time
    · rw [if_pos h1]
      have : removedSids now canc (t :: rest) = [] := by
        unfold removedSids
        rw [firedPart_cons_future now t rest h1]
        rfl
      rw [this, eraseAll_nil]
    · rw [if_neg h1]
      have hfired := firedPart_cons_due now t rest (by omega)
      by_cases h2 : t.sid ∈ canc
      · rw [if_pos h2]
        have hpred : rescheduledPred canc t = false := by
          unfold rescheduledPred
          rw [decide_eq_false (by simpa using h2)]
          rfl
        have : removedSids now canc (t :: rest) = t.sid :: removedSids now canc rest := by
          unfold removedSids
          rw [hfired, List.filter_cons, hpred]
          rfl
        rw [this, eraseAll_cons, ih _ _]
      · rw [if_neg h2]
        by_cases h3 : t.execOk && t.cycle
        · rw [if_pos h3]
          have hpred : rescheduledPred canc t = true := by
            unfold rescheduledPred
            rw [decide_eq_true (by simpa using h2)]
            simpa using h3
          have : removedSids now canc (t :: rest) = removedSids now canc rest := by
            unfold removedSids
            rw [hfired, List.filter_cons, hpred]
            rfl
          rw [this]
          exact ih _ _
        · rw [if_neg h3]
          have hpred : rescheduledPred canc t = false := by
            unfold rescheduledPred
            rw [decide_eq_true (by simpa using h2)]
            simpa using h3
          have : removedSids now canc (t :: rest) = t.sid :: removedSids now canc rest := by
            unfold removedSids
            rw [hfired, List.filter_cons, hpred]
            rfl
          rw [this, eraseAll_cons, ih _ _]

theorem walkSched_headScheds (now : Nat) (canc : List Nat) :
    ∀ (sched : List STask) (ref : List Nat) (ths : List ThreadTask),
    headScheds (walkSched now canc sched ref ths).2.2.1 =
      headScheds ths ++
        ((firedPart now sched).filter (rescheduledPred canc)).map STask.updateTime := by
  intro sched
  induction sched with
  | nil => intro ref ths; simp [walkSched_nil, firedPart_nil]
  | cons t rest ih =>
    intro ref ths
    rw [walkSched_cons]
    by_cases h1 : now < t.time
    · rw [if_pos h1, firedPart_cons_future now t rest h1]
      simp
    · rw [if_neg h1]
      rw [firedPart_cons_due now t rest (by omega), List.filter_cons]
      by_cases h2 : t.sid ∈ canc
      · rw [if_pos h2]
        have hpred : rescheduledPred canc t = false := by
          unfold rescheduledPred
          rw [decide_eq_false (by simpa using h2)]
          rfl
        rw [hpred]
        simpa using ih _ _
      · rw [if_neg h2]
        by_cases h3 : t.execOk && t.cycle
        · rw [if_pos h3]
          have hpred : rescheduledPred canc t = true := by
            unfold rescheduledPred
            rw [decide_eq_true (by simpa using h2)]
            simpa using h3
          rw [hpred]
          show headScheds (walkSched now canc rest ref _).2.2.1 = _
          rw [ih _ _]
          rw [headScheds_updateFirst_append,
            headScheds_updateFirst _ (fun ib => postAll_scheduledTasks t.posts ib)]
          simp
        · rw [if_neg h3]
          have hpred : rescheduledPred canc t = false := by
            unfold rescheduledPred
            rw [decide_eq_true (by simpa using h2)]
            simpa using h3
          rw [hpred]
          show headScheds (walkSched now canc rest (ref.erase t.sid) _).2.2.1 = _
          rw [ih _ _]
          rw [headScheds_updateFirst _ (fun ib => postAll_scheduledTasks t.posts ib)]
          simp

theorem walkSched_trace (now : Nat) (canc : List Nat) :
    ∀ (sched : List STask) (ref : List Nat) (ths : List ThreadTask),
    (walkSched now canc sched ref ths).2.2.2 =
      ((firedPart now sched).filter (fun t => decide (t.sid ∉ canc))).map
        (fun t => TraceEv.runSched t.sid) := by
  intro sched
  induction sched with
  | nil => intro ref ths; rfl
  | cons t rest ih =>
    intro ref ths
    rw [walkSched_cons]
    by_cases h1 : now < t.time
    · rw [if_pos h1, firedPart_cons_future now t rest h1]
      rfl
    · rw [if_neg h1]
      rw [firedPart_cons_due now t rest (by omega), List.filter_cons]
      by_cases h2 : t.sid ∈ canc
      · rw [if_pos h2, decide_eq_false (by simpa using h2)]
        simpa using ih _ _
      · rw [if_neg h2, decide_eq_true (by simpa using h2)]
        by_cases h3 : t.execOk && t.cycle
        · rw [if_pos h3]
          simpa using ih _ _
        · rw [if_neg h3]
          simpa using ih _ _

theorem walkSched_tasks_mono (now : Nat) (canc : List Nat) :
    ∀ (sched : List STask) (ref : List Nat) (ths : List ThreadTask) (g : Nat) (t : Task),
    t ∈ flatTasks ths g → t ∈ flatTasks (walkSched now canc sched ref ths).2.2.1 g := by
  intro sched
  induction sched with
  | nil => intro ref ths g t h; exact h
  | cons s rest ih =>
    intro ref ths g t h
    rw [walkSched_cons]
    by_cases h1 : now < s.time
    · rw [if_pos h1]; exact h
    · rw [if_neg h1]
      by_cases h2 : s.sid ∈ canc
      · rw [if_pos h2]; exact ih _ _ g t h
      · rw [if_neg h2]
        have hmem1 : t ∈ flatTasks (updateFirst (fun ib => ib.postAll s.posts) ths) g :=
          flatTasks_updateFirst_mono _ g
            (fun ib x hx => by rw [postAll_tasks]; exact List.mem_append.mpr (Or.inl hx))
            ths t h
        by_cases h3 : s.execOk && s.cycle
        · rw [if_pos h3]
          apply ih
          exact flatTasks_updateFirst_mono
            (fun ib => { ib with scheduledTasks := ib.scheduledTasks ++ [s.updateTime] })
            g (fun ib x hx => hx) _ t hmem1
        · rw [if_neg h3]
          exact ih _ _ g t hmem1

theorem walkSched_tasks_insert (now : Nat) (canc : List Nat) :
    ∀ (sched : List STask) (ref : List Nat) (ths : List ThreadTask) (g : Nat)
    (tau : Task) (sigma : STask),
    sigma ∈ firedPart now sched → sigma.sid ∉ canc → (g, tau) ∈ sigma.posts →
    tau ∈ flatTasks (walkSched now canc sched ref ths).2.2.1 g := by
  intro sched
  induction sched with
  | nil => intro ref ths g tau sigma hs; cases hs
  | cons s rest ih =>
    intro ref ths g tau sigma hs hc hp
    by_cases h1 : now < s.time
    · rw [firedPart_cons_future now s rest h1] at hs
      cases hs
    · rw [firedPart_cons_due now s rest (by omega)] at hs
      rw [walkSched_cons, if_neg h1]
      rcases List.mem_cons.mp hs with heq | hmem
      · subst heq
        rw [if_neg hc]
        have hins : tau ∈ flatTasks (updateFirst (fun ib => ib.postAll sigma.posts) ths) g :=
          flatTasks_updateFirst_insert _ g tau
            (fun ib => by
              rw [postAll_tasks]
              exact List.mem_append.mpr (Or.inr (mem_groupPosts g tau sigma.posts hp))) ths
        by_cases h3 : sigma.execOk && sigma.cycle
        · rw [if_pos h3]
          apply walkSched_tasks_mono
          exact flatTasks_updateFirst_mono
            (fun ib => { ib with scheduledTasks := ib.scheduledTasks ++ [sigma.updateTime] })
            g (fun ib x hx => hx) _ tau hins
        · rw [if_neg h3]
          exact walkSched_tasks_mono now canc rest _ _ g tau hins
      · by_cases h2 : s.sid ∈ canc
        · rw [if_pos h2]
          exact ih _ _ g tau sigma hmem hc hp
        · rw [if_neg h2]
          by_cases h3 : s.execOk && s.cycle
          · rw [if_pos h3]
            exact ih _ _ g tau sigma hmem hc hp
          · rw [if_neg h3]
            exact ih _ _ g tau sigma hmem hc hp

theorem walkSched_runSched_mem (now : Nat) (canc : List Nat) (sched : List STask)
    (ref : List Nat) (ths : List ThreadTask) (sigma : STask)
    (hs : sigma ∈ firedPart now sched) (hc : sigma.sid ∉ canc) :
    TraceEv.runSched sigma.sid ∈ (walkSched now canc sched ref ths).2.2.2 := by
  rw [walkSched_trace]
  exact List.mem_map.mpr ⟨sigma, List.mem_filter.mpr ⟨hs, by simpa using hc⟩, rfl⟩

/-!  Composition lemmas and trace-order helpers. -/

theorem executeScheduledEvents_eq (last now : Nat) (st : DpState) :
    executeScheduledEvents last now st =
      ((executeEvents last 1 (mergeAsyncEvents last (afterWalk now st))).1,
       (walkOf now st).2.2.2 ++ [TraceEv.ctxReset] ++
         (executeEvents last 1 (mergeAsyncEvents last (afterWalk now st))).2) := rfl

theorem tick_eq (last now : Nat) (st : DpState) :
    tick last now st =
      (mergeEvents (executeScheduledEvents last now (executeEvents last 0 st).1).1,
       (executeEvents last 0 st).2 ++
         (executeScheduledEvents last now (executeEvents last 0 st).1).2) := rfl

theorem executeEvents_def (last g : Nat) (st : DpState) :
    executeEvents last g st = execFrom last (last - g) g st := rfl

theorem seqBefore_of_mem (a b : TraceEv) (l1 l2 : List TraceEv)
    (ha : a ∈ l1) (hb : b ∈ l2) : SeqBefore a b (l1 ++ l2) :=
  ⟨l1, l2, rfl, ha, hb⟩

theorem seqBefore_append_right (a b : TraceEv) (l l2 : List TraceEv)
    (h : SeqBefore a b l) : SeqBefore a b (l ++ l2) := by
  rcases h with ⟨p, q, rfl, ha, hb⟩
  exact ⟨p, q ++ l2, by rw [List.append_assoc], ha, List.mem_append.mpr (Or.inl hb)⟩

theorem seqBefore_append_left (a b : TraceEv) (l l1 : List TraceEv)
    (h : SeqBefore a b l) : SeqBefore a b (l1 ++ l) := by
  rcases h with ⟨p, q, rfl, ha, hb⟩
  exact ⟨l1 ++ p, q, by rw [List.append_assoc], List.mem_append.mpr (Or.inr ha), hb⟩

theorem mem_mtasks0_run_in_tick (last now : Nat) (st : DpState) (t : Task)
    (hlast : 1 ≤ last) (ht : t ∈ st.m_tasks 0) :
    TraceEv.run t.tid 0 ∈ (tick last now st).2 := by
  rw [tick_eq]
  apply List.mem_append.mpr
  left
  rw [executeEvents_def, Nat.sub_zero]
  obtain ⟨fuel, hfuel⟩ : ∃ fuel, last = fuel + 1 := ⟨last - 1, by omega⟩
  rw [hfuel]
  have he : (st.m_tasks 0).isEmpty = false := by
    cases hm : st.m_tasks 0 with
    | nil => rw [hm] at ht; cases ht
    | cons a l => rfl
  rw [execFrom_succ_serial (fuel + 1) fuel st he]
  apply List.mem_append.mpr
  left
  rw [executeSerialEvents_trace]
  exact List.mem_append.mpr (Or.inl (List.mem_map.mpr ⟨t, ht, rfl⟩))


theorem executeEvents_zero_unfold (last : Nat) (st : DpState) (hlast : 1 ≤ last)
    (he : (st.m_tasks 0).isEmpty = false) :
    executeEvents last 0 st =
      ((executeEvents last 1 (mergeAsyncEvents last (executeSerialEvents st).1)).1,
       (executeSerialEvents st).2 ++
         (executeEvents last 1 (mergeAsyncEvents last (executeSerialEvents st).1)).2) := by
  obtain ⟨fuel, hfuel⟩ : ∃ fuel, last = fuel + 1 := ⟨last - 1, by omega⟩
  subst hfuel
  rw [executeEvents_def, executeEvents_def, Nat.sub_zero, Nat.add_sub_cancel]
  exact execFrom_succ_serial (fuel + 1) fuel st he

/-!  Claim theorems. -/

/-- Claim C5: when asyncWait is entered while the re-entrancy flag
asyncWaitDisabled is set, the indexed callable is invoked inline on the
calling thread for every index of the range, in increasing order, and nothing
is submitted to the worker pool, whatever partition list generatePartition
would have produced. -/
theorem asyncWait_reentrant_inline (n : Nat) (parts : List (Nat × Nat)) :
    asyncWait n true parts = { inlineCalls := List.range n, pooled := [] } := by
  unfold asyncWait
  by_cases h : n = 0
  · subst h; simp
  · simp [h]

/-- Claim C10: tryAddEvent with a null callable returns at the null check for
every context marker, invoking nothing and leaving the state (hence every
inbox) untouched. -/
theorem tryAddEvent_null (c : DispatcherContext) (i : Nat) (st : DpState) :
    tryAddEvent c i none st = (st, TryAddOutcome.returnedAtNullCheck) := rfl

/-- Claim C7: stopEvent with an id present in the id-map sets the cancel latch
of the task and erases the map entry, touching nothing else; with an unknown
id it changes nothing and does not fail. -/
theorem stopEvent_spec (st : DpState) (eventId : Nat) :
    (eventId ∈ st.scheduledTasksRef →
      (stopEvent eventId st).scheduledTasksRef = st.scheduledTasksRef.erase eventId ∧
      eventId ∈ (stopEvent eventId st).cancelled ∧
      (st.scheduledTasksRef.Nodup → eventId ∉ (stopEvent eventId st).scheduledTasksRef) ∧
      (stopEvent eventId st).scheduledTasks = st.scheduledTasks ∧
      (stopEvent eventId st).threads = st.threads ∧
      (stopEvent eventId st).m_tasks = st.m_tasks) ∧
    (eventId ∉ st.scheduledTasksRef → stopEvent eventId st = st) := by
  constructor
  · intro h
    unfold stopEvent
    rw [if_pos h]
    refine ⟨rfl, List.mem_cons_self _ _, ?_, rfl, rfl, rfl⟩
    intro hnd hc
    exact (hnd.mem_erase_iff.mp hc).1 rfl
  · intro h
    unfold stopEvent
    rw [if_neg h]

/-- Witness for C7 at a concrete state: id 1 is found and handled, id 5 is
unknown and the call is a no-op. -/
theorem stopEvent_spec_witness :
    (stopEvent 1 stopWitnessState).scheduledTasksRef =
      stopWitnessState.scheduledTasksRef.erase 1 ∧
    1 ∈ (stopEvent 1 stopWitnessState).cancelled ∧
    1 ∉ (stopEvent 1 stopWitnessState).scheduledTasksRef ∧
    stopEvent 5 stopWitnessState = stopWitnessState :=
  ⟨((stopEvent_spec stopWitnessState 1).1 (by decide)).1,
   ((stopEvent_spec stopWitnessState 1).1 (by decide)).2.1,
   ((stopEvent_spec stopWitnessState 1).1 (by decide)).2.2.1 (by decide),
   (stopEvent_spec stopWitnessState 5).2 (by decide)⟩

/-- Claim C9 counterexample: right after Dispatcher.init has refreshed the
cached clock, before any iteration of the dispatcher loop has run, isOn
already returns true, while the claim says it returns false before the first
tick of the loop has refreshed the clock. -/
theorem isOn_cex :
    (dispatcherInitPreLoop 5 initialClock).loopTicks = 0 ∧
    isOn (dispatcherInitPreLoop 5 initialClock) = true ∧
    isOn initialClock = false := by decide

/-- Claim C9 amended: isOn returns false before the cached clock is first
refreshed; it returns true from the refresh done by Dispatcher.init, which
happens before the loop starts, and in particular after every loop
iteration, as long as the refreshed time is positive. -/
theorem isOn_amended :
    isOn initialClock = false ∧
    (∀ now : Nat, 0 < now → isOn (dispatcherInitPreLoop now initialClock) = true) ∧
    (∀ (now : Nat) (s : ClockState), 0 < now → isOn (loopIteration now s) = true) := by
  refine ⟨rfl, ?_, ?_⟩
  · intro now h
    unfold dispatcherInitPreLoop updateOtsysTime isOn
    simp
    omega
  · intro now s h
    unfold loopIteration updateOtsysTime isOn
    simp
    omega

/-- Witness for C9 amended at concrete times. -/
theorem isOn_amended_witness :
    isOn (dispatcherInitPreLoop 5 initialClock) = true ∧
    isOn (loopIteration 7 initialClock) = true :=
  ⟨isOn_amended.2.1 5 (by decide), isOn_amended.2.2 7 initialClock (by decide)⟩

/-- Claim C6: the staged execution returns at the first group whose
dispatcher-local array is empty, and for the group after Serial the array it
examines is the one produced by the post-serial async-only re-merge of the
inboxes, not the one from before it. -/
theorem staged_execution_stop :
    (∀ (last g : Nat) (st : DpState), (st.m_tasks g).isEmpty = true →
       executeEvents last g st = (st, [])) ∧
    (∀ (last : Nat) (st : DpState), 1 ≤ last → (st.m_tasks 0).isEmpty = false →
       executeEvents last 0 st =
         ((executeEvents last 1 (mergeAsyncEvents last (executeSerialEvents st).1)).1,
          (executeSerialEvents st).2 ++
            (executeEvents last 1 (mergeAsyncEvents last (executeSerialEvents st).1)).2)) := by
  constructor
  · intro last g st h
    rw [executeEvents_def]
    cases hf : last - g with
    | zero => rfl
    | succ fuel => exact execFrom_succ_empty last fuel g st h
  · intro last st hlast h
    exact executeEvents_zero_unfold last st hlast h

/-- Witness for C6: a state with an empty GenericParallel array stops there,
and a state with serial work decomposes through the re-merged state. -/
theorem staged_execution_stop_witness :
    executeEvents 2 1 emptyState = (emptyState, []) ∧
    executeEvents 2 0 twoSerialState =
      ((executeEvents 2 1 (mergeAsyncEvents 2 (executeSerialEvents twoSerialState).1)).1,
       (executeSerialEvents twoSerialState).2 ++
         (executeEvents 2 1 (mergeAsyncEvents 2 (executeSerialEvents twoSerialState).1)).2) :=
  ⟨staged_execution_stop.1 2 1 emptyState (by decide),
   staged_execution_stop.2 2 twoSerialState (by decide) (by decide)⟩

/-- Claim C4: the firing walk stops at the first registry task whose deadline
is in the future and exactly the fired front is erased from the ordered set;
a fired task that is not cancelled, returns true and is cyclic gets its
deadline advanced and is appended to the scheduled sequence of the inbox of
the current thread, not put back into the registry; every other fired task
has its id erased from the id-map, and nothing else leaves the id-map. -/
theorem scheduled_firing_walk (now : Nat) (canc : List Nat) (sched : List STask)
    (ref : List Nat) (ths : List ThreadTask) (id : Nat) (href : ref.Nodup) :
    (walkSched now canc sched ref ths).1 =
      sched.dropWhile (fun t => decide (t.time ≤ now)) ∧
    headScheds (walkSched now canc sched ref ths).2.2.1 =
      headScheds ths ++
        ((firedPart now sched).filter (rescheduledPred canc)).map STask.updateTime ∧
    (walkSched now canc sched ref ths).2.1 = eraseAll ref (removedSids now canc sched) ∧
    (id ∈ (walkSched now canc sched ref ths).2.1 ↔
      id ∈ ref ∧ id ∉ removedSids now canc sched) ∧
    (walkSched now canc sched ref ths).2.2.2 =
      ((firedPart now sched).filter (fun t => decide (t.sid ∉ canc))).map
        (fun t => TraceEv.runSched t.sid) := by
  refine ⟨walkSched_remaining now canc sched ref ths,
    walkSched_headScheds now canc sched ref ths,
    walkSched_ref now canc sched ref ths, ?_,
    walkSched_trace now canc sched ref ths⟩
  rw [walkSched_ref now canc sched ref ths]
  exact eraseAll_mem (removedSids now canc sched) ref href id

/-- Witness for C4 on a concrete registry: three due tasks (a cyclic one, a
cancelled one, a plain one) and one future task. -/
theorem scheduled_firing_walk_witness :
    (walkSched 10 [3] walkWitnessSched [1, 3, 2, 4] []).1 =
      walkWitnessSched.dropWhile (fun t => decide (t.time ≤ 10)) ∧
    headScheds (walkSched 10 [3] walkWitnessSched [1, 3, 2, 4] []).2.2.1 =
      headScheds [] ++
        ((firedPart 10 walkWitnessSched).filter (rescheduledPred [3])).map
          STask.updateTime ∧
    (walkSched 10 [3] walkWitnessSched [1, 3, 2, 4] []).2.1 =
      eraseAll [1, 3, 2, 4] (removedSids 10 [3] walkWitnessSched) ∧
    (2 ∈ (walkSched 10 [3] walkWitnessSched [1, 3, 2, 4] []).2.1 ↔
      2 ∈ [1, 3, 2, 4] ∧ 2 ∉ removedSids 10 [3] walkWitnessSched) ∧
    (walkSched 10 [3] walkWitnessSched [1, 3, 2, 4] []).2.2.2 =
      ((firedPart 10 walkWitnessSched).filter (fun t => decide (t.sid ∉ [3]))).map
        (fun t => TraceEv.runSched t.sid) :=
  scheduled_firing_walk 10 [3] walkWitnessSched [1, 3, 2, 4] [] 2 (by decide)

/-- Claim C8 counterexample: a tick with two serial tasks invokes them with no
context reset in between (the serial stage resets the marker only once, after
the whole batch), so the marker is not reset between any two consecutive task
invocations. -/
theorem context_reset_cex :
    resetSeparated (tick 2 0 twoSerialState).2 = false ∧
    TraceEv.run 1 0 ∈ (tick 2 0 twoSerialState).2 ∧
    TraceEv.run 2 0 ∈ (tick 2 0 twoSerialState).2 := by
  exact ⟨by decide, by decide, by decide⟩

/-- Helper for C8: a parallel-stage trace alternates invocations and resets,
so it has a reset between any two consecutive invocations. -/
theorem resetSeparatedAux_pattern (g : Nat) (ts : List Task) :
    resetSeparatedAux (ts.flatMap (fun t => [TraceEv.run t.tid g, TraceEv.ctxReset]))
      false = true := by
  induction ts with
  | nil => rfl
  | cons t rest ih => simpa [resetSeparatedAux] using ih

/-- Claim C8 amended: the context marker is reset between any two consecutive
invocations of a parallel stage; in the serial stage and in scheduled-task
firing it is overwritten for each task but reset only once, after the whole
batch or walk. -/
theorem context_reset_amended :
    (∀ st : DpState, (executeSerialEvents st).2 =
       (st.m_tasks 0).map (fun t => TraceEv.run t.tid 0) ++ [TraceEv.ctxReset]) ∧
    (∀ (g : Nat) (st : DpState), (executeParallelEvents g st).2 =
       (st.m_tasks g).flatMap (fun t => [TraceEv.run t.tid g, TraceEv.ctxReset])) ∧
    (∀ (g : Nat) (st : DpState), resetSeparated (executeParallelEvents g st).2 = true) ∧
    (∀ (now : Nat) (canc : List Nat) (sched : List STask) (ref : List Nat)
       (ths : List ThreadTask),
       TraceEv.ctxReset ∉ (walkSched now canc sched ref ths).2.2.2) ∧
    (∀ (last now : Nat) (st : DpState), (executeScheduledEvents last now st).2 =
       (walkOf now st).2.2.2 ++ [TraceEv.ctxReset] ++
         (executeEvents last 1 (mergeAsyncEvents last (afterWalk now st))).2) := by
  refine ⟨executeSerialEvents_trace, executeParallelEvents_trace, ?_, ?_, ?_⟩
  · intro g st
    rw [executeParallelEvents_trace]
    exact resetSeparatedAux_pattern g (st.m_tasks g)
  · intro now canc sched ref ths h
    rw [walkSched_trace] at h
    rcases List.mem_map.mp h with ⟨x, _, hx⟩
    simp at hx
  · intro last now st
    rfl

/-!  Registry invariant lemmas for C1. -/

theorem regInvParts_perm (sched : List STask) (ref canc : List Nat)
    (ts1 ts2 : List STask) (hperm : ts1.Perm ts2)
    (h : regInvParts sched ref canc ts1) : regInvParts sched ref canc ts2 := by
  obtain ⟨h1, h2, h3, h4, h5⟩ := h
  refine ⟨h1, ?_, ?_, h4, ?_⟩
  · exact ((hperm.append_left sched).map STask.sid).nodup h2
  · intro id hid
    rcases h3 id hid with ⟨τ, hτ, he⟩ | ⟨τ, hτ, he⟩
    · exact Or.inl ⟨τ, hτ, he⟩
    · exact Or.inr ⟨τ, hperm.mem_iff.mp hτ, he⟩
  · intro τ hτ
    exact h5 τ (hperm.mem_iff.mpr hτ)

theorem regInvParts_perm_sched (sched1 sched2 : List STask) (ref canc : List Nat)
    (ts : List STask) (hperm : sched1.Perm sched2)
    (h : regInvParts sched1 ref canc ts) : regInvParts sched2 ref canc ts := by
  obtain ⟨h1, h2, h3, h4, h5⟩ := h
  refine ⟨h1, ?_, ?_, ?_, h5⟩
  · exact ((hperm.append_right ts).map STask.sid).nodup h2
  · intro id hid
    rcases h3 id hid with ⟨τ, hτ, he⟩ | ⟨τ, hτ, he⟩
    · exact Or.inl ⟨τ, hperm.mem_iff.mp hτ, he⟩
    · exact Or.inr ⟨τ, hτ, he⟩
  · intro τ hτ
    exact h4 τ (hperm.mem_iff.mpr hτ)

theorem regInvParts_step_erase (t : STask) (rest : List STask) (ref canc : List Nat)
    (flat : List STask) (h : regInvParts (t :: rest) ref canc flat) :
    regInvParts rest (ref.erase t.sid) canc flat := by
  obtain ⟨h1, h2, h3, h4, h5⟩ := h
  have hcons : sidsOf ((t :: rest) ++ flat) = t.sid :: sidsOf (rest ++ flat) := rfl
  rw [hcons] at h2
  have hnd : (sidsOf (rest ++ flat)).Nodup := (List.nodup_cons.mp h2).2
  have hhead : t.sid ∉ sidsOf (rest ++ flat) := (List.nodup_cons.mp h2).1
  refine ⟨h1.erase t.sid, hnd, ?_, ?_, ?_⟩
  · intro id hid
    have hid' := (h1.mem_erase_iff).mp hid
    rcases h3 id hid'.2 with ⟨τ, hτ, he⟩ | ⟨τ, hτ, he⟩
    · rcases List.mem_cons.mp hτ with heq | hτ'
      · rw [heq] at he
        exact absurd he.symm hid'.1
      · exact Or.inl ⟨τ, hτ', he⟩
    · exact Or.inr ⟨τ, hτ, he⟩
  · intro τ hτ
    rcases h4 τ (List.mem_cons_of_mem t hτ) with hr | hcn
    · left
      apply (h1.mem_erase_iff).mpr
      refine ⟨?_, hr⟩
      intro heq
      apply hhead
      rw [← heq]
      exact List.mem_map.mpr ⟨τ, List.mem_append.mpr (Or.inl hτ), rfl⟩
    · exact Or.inr hcn
  · intro τ hτ
    rcases h5 τ hτ with hr | hcn
    · left
      apply (h1.mem_erase_iff).mpr
      refine ⟨?_, hr⟩
      intro heq
      apply hhead
      rw [← heq]
      exact List.mem_map.mpr ⟨τ, List.mem_append.mpr (Or.inr hτ), rfl⟩
    · exact Or.inr hcn

theorem regInvParts_step_cycle (t : STask) (rest : List STask) (ref canc : List Nat)
    (flat : List STask) (hc : t.sid ∉ canc) (h : regInvParts (t :: rest) ref canc flat) :
    regInvParts rest ref canc (t.updateTime :: flat) := by
  obtain ⟨h1, h2, h3, h4, h5⟩ := h
  have hcons : sidsOf ((t :: rest) ++ flat) = t.sid :: sidsOf (rest ++ flat) := rfl
  rw [hcons] at h2
  refine ⟨h1, ?_, ?_, ?_, ?_⟩
  · have hq : (rest ++ t.updateTime :: flat).Perm (t.updateTime :: (rest ++ flat)) :=
      List.perm_middle
    have hmap : (sidsOf (rest ++ t.updateTime :: flat)).Perm
        (t.sid :: sidsOf (rest ++ flat)) := hq.map STask.sid
    exact hmap.symm.nodup h2
  · intro id hid
    rcases h3 id hid with ⟨τ, hτ, he⟩ | ⟨τ, hτ, he⟩
    · rcases List.mem_cons.mp hτ with heq | hτ'
      · right
        refine ⟨t.updateTime, List.mem_cons_self _ _, ?_⟩
        rw [heq] at he
        exact he
      · exact Or.inl ⟨τ, hτ', he⟩
    · exact Or.inr ⟨τ, List.mem_cons_of_mem _ hτ, he⟩
  · intro τ hτ
    exact h4 τ (List.mem_cons_of_mem t hτ)
  · intro τ hτ
    rcases List.mem_cons.mp hτ with heq | hτ'
    · rw [heq]
      rcases h4 t (List.mem_cons_self t rest) with hr | hcn
      · exact Or.inl hr
      · exact absurd hcn hc
    · exact h5 τ hτ'

theorem regInvParts_walk (now : Nat) (canc : List Nat) :
    ∀ (sched : List STask) (ref : List Nat) (ths : List ThreadTask),
    regInvParts sched ref canc (flatScheds ths) →
    regInvParts (walkSched now canc sched ref ths).1
      (walkSched now canc sched ref ths).2.1 canc
      (flatScheds (walkSched now canc sched ref ths).2.2.1) := by
  intro sched
  induction sched with
  | nil => intro ref ths h; exact h
  | cons t rest ih =>
    intro ref ths h
    rw [walkSched_cons]
    by_cases h1 : now < t.time
    · rw [if_pos h1]
      exact h
    · rw [if_neg h1]
      by_cases h2 : t.sid ∈ canc
      · rw [if_pos h2]
        exact ih (ref.erase t.sid) ths (regInvParts_step_erase t rest ref canc _ h)
      · rw [if_neg h2]
        have hflat1 : flatScheds (updateFirst (fun ib => ib.postAll t.posts) ths) =
            flatScheds ths :=
          flatScheds_updateFirst _ (fun ib => postAll_scheduledTasks t.posts ib) ths
        by_cases h3 : t.execOk && t.cycle
        · rw [if_pos h3]
          have hperm : (flatScheds (updateFirst (fun ib =>
              { ib with scheduledTasks := ib.scheduledTasks ++ [t.updateTime] })
              (updateFirst (fun ib => ib.postAll t.posts) ths))).Perm
              (t.updateTime :: flatScheds ths) := by
            have := flatScheds_updateFirst_append t.updateTime
              (updateFirst (fun ib => ib.postAll t.posts) ths)
            rw [hflat1] at this
            exact this
          exact ih ref _ (regInvParts_perm rest ref canc _ _ hperm.symm
            (regInvParts_step_cycle t rest ref canc _ h2 h))
        · rw [if_neg h3]
          refine ih (ref.erase t.sid) _ ?_
          rw [hflat1]
          exact regInvParts_step_erase t rest ref canc _ h

theorem registryInv_of_fields (st1 st2 : DpState)
    (hs : st2.scheduledTasks = st1.scheduledTasks)
    (hr : st2.scheduledTasksRef = st1.scheduledTasksRef)
    (hc : st2.cancelled = st1.cancelled)
    (hf : flatScheds st2.threads = flatScheds st1.threads)
    (h : registryInv st1) : registryInv st2 := by
  unfold registryInv at h ⊢
  rw [hs, hr, hc, hf]
  exact h

theorem registryInv_execFrom (last fuel g : Nat) (st : DpState)
    (h : registryInv st) : registryInv (execFrom last fuel g st).1 :=
  registryInv_of_fields st (execFrom last fuel g st).1
    (execFrom_fields last fuel g st).1
    (execFrom_fields last fuel g st).2.1
    (execFrom_fields last fuel g st).2.2.1
    (execFrom_fields last fuel g st).2.2.2.1 h

theorem registryInv_mergeAsync (last : Nat) (st : DpState)
    (h : registryInv st) : registryInv (mergeAsyncEvents last st) :=
  registryInv_of_fields st (mergeAsyncEvents last st) rfl rfl rfl
    (mergeAsyncEvents_flatScheds last st) h

theorem registryInv_afterWalk (now : Nat) (st : DpState)
    (h : registryInv st) : registryInv (afterWalk now st) :=
  regInvParts_walk now st.cancelled st.scheduledTasks st.scheduledTasksRef st.threads h

theorem registryInv_executeScheduledEvents (last now : Nat) (st : DpState)
    (h : registryInv st) : registryInv (executeScheduledEvents last now st).1 := by
  show registryInv (executeEvents last 1
    (mergeAsyncEvents last (afterWalk now st))).1
  exact registryInv_execFrom last (last - 1) 1 _
    (registryInv_mergeAsync last _ (registryInv_afterWalk now st h))

theorem registryInv_mergeEvents (st : DpState)
    (h : registryInv st) : registryInv (mergeEvents st) := by
  unfold registryInv
  rw [mergeEvents_flatScheds, mergeEvents_sched, mergeEvents_ref, mergeEvents_cancelled]
  apply regInvParts_perm_sched (flatScheds st.threads ++ st.scheduledTasks) _
    st.scheduledTasksRef st.cancelled []
    (insertAllSched_perm (threadScheds st) st.scheduledTasks).symm
  obtain ⟨h1, h2, h3, h4, h5⟩ := h
  refine ⟨h1, ?_, ?_, ?_, ?_⟩
  · have hperm : (sidsOf (st.scheduledTasks ++ flatScheds st.threads)).Perm
        (sidsOf ((flatScheds st.threads ++ st.scheduledTasks) ++ [])) := by
      rw [List.append_nil]
      exact List.perm_append_comm.map STask.sid
    exact hperm.nodup h2
  · intro id hid
    rcases h3 id hid with ⟨τ, hτ, he⟩ | ⟨τ, hτ, he⟩
    · exact Or.inl ⟨τ, List.mem_append.mpr (Or.inr hτ), he⟩
    · exact Or.inl ⟨τ, List.mem_append.mpr (Or.inl hτ), he⟩
  · intro τ hτ
    rcases List.mem_append.mp hτ with hτ' | hτ'
    · exact h5 τ hτ'
    · exact h4 τ hτ'
  · intro τ hτ
    cases hτ

theorem registryInv_scheduleEvent (i : Nat) (t : STask) (st : DpState)
    (h : registryInv st) (hfresh : sidFresh st t.sid) :
    registryInv (scheduleEvent i t st).1 := by
  obtain ⟨f1, f2, f3⟩ := hfresh
  have href : (scheduleEvent i t st).1.scheduledTasksRef =
      st.scheduledTasksRef ++ [t.sid] := by
    show (if t.sid ∈ st.scheduledTasksRef then st.scheduledTasksRef
      else st.scheduledTasksRef ++ [t.sid]) = st.scheduledTasksRef ++ [t.sid]
    rw [if_neg f1]
  unfold registryInv
  rw [href]
  apply regInvParts_perm st.scheduledTasks (st.scheduledTasksRef ++ [t.sid])
    st.cancelled (t :: flatScheds st.threads) _
    (flatScheds_updateAtCreate_append i t st.threads).symm
  obtain ⟨h1, h2, h3, h4, h5⟩ := h
  have hsidmem : t.sid ∉ sidsOf (st.scheduledTasks ++ flatScheds st.threads) := f3
  refine ⟨?_, ?_, ?_, ?_, ?_⟩
  · rw [List.nodup_append]
    exact ⟨h1, List.nodup_singleton t.sid,
      fun a ha hb => f1 (by rwa [List.mem_singleton.mp hb] at ha)⟩
  · have hq : (st.scheduledTasks ++ t :: flatScheds st.threads).Perm
        (t :: (st.scheduledTasks ++ flatScheds st.threads)) := List.perm_middle
    have hmap := hq.map STask.sid
    apply hmap.symm.nodup
    exact List.nodup_cons.mpr ⟨hsidmem, h2⟩
  · intro id hid
    rcases List.mem_append.mp hid with hid' | hid'
    · rcases h3 id hid' with ⟨τ, hτ, he⟩ | ⟨τ, hτ, he⟩
      · exact Or.inl ⟨τ, hτ, he⟩
      · exact Or.inr ⟨τ, List.mem_cons_of_mem t hτ, he⟩
    · exact Or.inr ⟨t, List.mem_cons_self t _, (List.mem_singleton.mp hid').symm⟩
  · intro τ hτ
    rcases h4 τ hτ with hr | hcn
    · exact Or.inl (List.mem_append.mpr (Or.inl hr))
    · exact Or.inr hcn
  · intro τ hτ
    rcases List.mem_cons.mp hτ with heq | hτ'
    · rw [heq]
      exact Or.inl (List.mem_append.mpr (Or.inr (List.mem_singleton.mpr rfl)))
    · rcases h5 τ hτ' with hr | hcn
      · exact Or.inl (List.mem_append.mpr (Or.inl hr))
      · exact Or.inr hcn

theorem registryInv_stopEvent (eid : Nat) (st : DpState)
    (h : registryInv st) : registryInv (stopEvent eid st) := by
  unfold stopEvent
  by_cases hm : eid ∈ st.scheduledTasksRef
  · rw [if_pos hm]
    obtain ⟨h1, h2, h3, h4, h5⟩ := h
    refine ⟨h1.erase eid, h2, ?_, ?_, ?_⟩
    · intro id hid
      exact h3 id ((h1.mem_erase_iff).mp hid).2
    · intro τ hτ
      rcases h4 τ hτ with hr | hcn
      · by_cases heq : τ.sid = eid
        · exact Or.inr (by rw [heq]; exact List.mem_cons_self eid _)
        · exact Or.inl ((h1.mem_erase_iff).mpr ⟨heq, hr⟩)
      · exact Or.inr (List.mem_cons_of_mem eid hcn)
    · intro τ hτ
      rcases h5 τ hτ with hr | hcn
      · by_cases heq : τ.sid = eid
        · exact Or.inr (by rw [heq]; exact List.mem_cons_self eid _)
        · exact Or.inl ((h1.mem_erase_iff).mpr ⟨heq, hr⟩)
      · exact Or.inr (List.mem_cons_of_mem eid hcn)
  · rw [if_neg hm]
    exact h

theorem registryInv_tick (last now : Nat) (st : DpState)
    (h : registryInv st) : registryInv (tick last now st).1 := by
  rw [tick_eq]
  exact registryInv_mergeEvents _
    (registryInv_executeScheduledEvents last now _
      (registryInv_execFrom last (last - 0) 0 st h))

/-- Claim C1 counterexample: the invariant as stated fails at points that are
outside any insertion or cancellation critical section.  After scheduleEvent
returns, the id-map holds id 1 while the ordered set is still empty (the
counterpart sits in the submitter inbox until the merge); after the merge the
invariant holds; after stopEvent returns, the cancelled task is still in the
ordered set while its id-map entry is gone. -/
theorem registry_invariant_cex :
    ¬ refSchedMatched afterScheduleState ∧
    refSchedMatched afterMergeState ∧
    ¬ refSchedMatched afterStopState :=
  ⟨by decide, by decide, by decide⟩

/-- Claim C1 amended: with globally unique ids, at every point outside the
operations themselves, every entry of the id-map has a live counterpart in
the ordered set or in the scheduled sequence of a submitter inbox awaiting
merge, and every scheduled task held by the ordered set or an inbox has an
id-map entry unless its cancel latch is set.  This invariant holds at start
and is preserved by insertion, cancellation, both merges, staged execution,
scheduled-task firing, and the whole tick. -/
theorem registry_invariant_amended :
    registryInv emptyState ∧
    (∀ (i : Nat) (t : STask) (st : DpState), registryInv st → sidFresh st t.sid →
      registryInv (scheduleEvent i t st).1) ∧
    (∀ (eid : Nat) (st : DpState), registryInv st → registryInv (stopEvent eid st)) ∧
    (∀ st : DpState, registryInv st → registryInv (mergeEvents st)) ∧
    (∀ (last g : Nat) (st : DpState), registryInv st →
      registryInv (executeEvents last g st).1) ∧
    (∀ (last now : Nat) (st : DpState), registryInv st →
      registryInv (executeScheduledEvents last now st).1) ∧
    (∀ (last now : Nat) (st : DpState), registryInv st →
      registryInv (tick last now st).1) :=
  ⟨by decide,
   fun i t st h hf => registryInv_scheduleEvent i t st h hf,
   fun eid st h => registryInv_stopEvent eid st h,
   fun st h => registryInv_mergeEvents st h,
   fun last g st h => registryInv_execFrom last (last - g) g st h,
   fun last now st h => registryInv_executeScheduledEvents last now st h,
   fun last now st h => registryInv_tick last now st h⟩

/-- Witness for C1 amended along a concrete history: schedule id 1, merge,
cancel it, run a tick; the amended invariant holds at each state. -/
theorem registry_invariant_amended_witness :
    registryInv afterScheduleState ∧
    registryInv afterStopState ∧
    registryInv (tick 2 0 afterStopState).1 :=
  ⟨registry_invariant_amended.2.1 0 sampleSched emptyState (by decide) (by decide),
   registry_invariant_amended.2.2.1 1 afterMergeState (by decide),
   registry_invariant_amended.2.2.2.2.2.2 2 0 afterStopState (by decide)⟩

/-- Claim C2 counterexample: with the additional parallel groups the spec
describes (three groups here, Last = 3), an async task posted for group 2
from within a serial task does not run in the same tick at all: the staged
execution stops at the empty GenericParallel array before reaching group 2.
The originating serial task does run in this tick. -/
theorem async_same_tick_cex :
    TraceEv.run 1 0 ∈ (tick 3 0 groupTwoState).2 ∧
    TraceEv.run 2 2 ∉ (tick 3 0 groupTwoState).2 :=
  ⟨by decide, by decide⟩

/-- Claim C2 amended: an async task posted for GenericParallel from within a
serial task, or from within a fired scheduled-task callback, runs in the same
tick, strictly after the originating callable; for groups beyond
GenericParallel this holds only while no earlier parallel array is empty. -/
theorem async_same_tick_amended :
    (∀ (last now : Nat) (st : DpState) (s t : Task),
      2 ≤ last → s ∈ st.m_tasks 0 → (1, t) ∈ s.posts →
      SeqBefore (TraceEv.run s.tid 0) (TraceEv.run t.tid 1) (tick last now st).2) ∧
    (∀ (last now : Nat) (st : DpState) (sigma : STask) (t : Task),
      2 ≤ last → sigma ∈ firedPart now st.scheduledTasks → sigma.sid ∉ st.cancelled →
      (1, t) ∈ sigma.posts →
      SeqBefore (TraceEv.runSched sigma.sid) (TraceEv.run t.tid 1)
        (tick last now st).2) := by
  constructor
  · intro last now st s t hlast hs hp
    rw [tick_eq]
    apply seqBefore_append_right
    rw [executeEvents_def, Nat.sub_zero]
    have he : (st.m_tasks 0).isEmpty = false := by
      cases hm : st.m_tasks 0 with
      | nil => rw [hm] at hs; cases hs
      | cons a l => rfl
    obtain ⟨fuel, hfuel⟩ : ∃ fuel, last = fuel + 1 := ⟨last - 1, by omega⟩
    subst hfuel
    rw [execFrom_succ_serial (fuel + 1) fuel st he]
    apply seqBefore_of_mem
    · rw [executeSerialEvents_trace]
      exact List.mem_append.mpr (Or.inl (List.mem_map.mpr ⟨s, hs, rfl⟩))
    · apply execFrom_run_mem (fuel + 1) fuel 1 _ t ?_ (by omega) (by omega)
      rw [mergeAsyncEvents_mtasks_in (fuel + 1) _ 1 (le_refl 1) (by omega)]
      apply List.mem_append.mpr
      right
      exact executeSerialEvents_tasks_insert st 1 t s hs hp
  · intro last now st sigma t hlast hsig hc hp
    rw [tick_eq]
    apply seqBefore_append_left
    have h1 : (executeEvents last 0 st).1.scheduledTasks = st.scheduledTasks :=
      (execFrom_fields last (last - 0) 0 st).1
    have h2 : (executeEvents last 0 st).1.cancelled = st.cancelled :=
      (execFrom_fields last (last - 0) 0 st).2.2.1
    have hsig1 : sigma ∈ firedPart now (executeEvents last 0 st).1.scheduledTasks := by
      rw [h1]; exact hsig
    have hc1 : sigma.sid ∉ (executeEvents last 0 st).1.cancelled := by
      rw [h2]; exact hc
    rw [executeScheduledEvents_eq]
    apply seqBefore_of_mem
    · apply List.mem_append.mpr
      left
      exact walkSched_runSched_mem now _ _ _ _ sigma hsig1 hc1
    · rw [executeEvents_def]
      apply execFrom_run_mem last (last - 1) 1 _ t ?_ (by omega) (by omega)
      rw [mergeAsyncEvents_mtasks_in last _ 1 (le_refl 1) (by omega)]
      apply List.mem_append.mpr
      right
      exact walkSched_tasks_insert now _ _ _ _ 1 t sigma hsig1 hc1 hp

/-- Witness for C2 amended: a serial task posting an async GenericParallel
task, and a timer callback posting one, both run before their posted task in
the same tick's trace. -/
theorem async_same_tick_amended_witness :
    SeqBefore (TraceEv.run 1 0) (TraceEv.run 2 1) (tick 2 0 posterState).2 ∧
    SeqBefore (TraceEv.runSched 7) (TraceEv.run 9 1) (tick 2 5 timerState).2 :=
  ⟨async_same_tick_amended.1 2 0 posterState serialPoster (Task.mk 2 true [])
      (by decide) (List.Mem.head _) (List.Mem.head _),
   async_same_tick_amended.2 2 5 timerState timerPoster (Task.mk 9 true [])
      (by decide) (List.Mem.head _) (by decide) (List.Mem.head _)⟩

/-- Helper: a trace whose events all fail a test filters to nothing. -/
theorem filter_false_nil (p : TraceEv → Bool) (l : List TraceEv)
    (h : ∀ ev ∈ l, p ev = false) : l.filter p = [] := by
  induction l with
  | nil => rfl
  | cons e rest ih =>
    simp only [List.filter_cons, h e (List.mem_cons_self e rest), Bool.false_eq_true,
      if_false]
    exact ih (fun ev hev => h ev (List.mem_cons_of_mem e hev))

/-- Helper: serial-stage run events all pass the group-0 test. -/
theorem filter_run0_map (l : List Task) :
    (l.map (fun u => TraceEv.run u.tid 0)).filter (isRunInGroup 0) =
      l.map (fun u => TraceEv.run u.tid 0) := by
  induction l with
  | nil => rfl
  | cons u rest ih => simp [List.filter_cons, isRunInGroup, ih]

/-- Claim C3: a serial task posted from within a running serial task is not
executed during the current tick: the group-0 invocations of the tick are
exactly the serial batch the tick started with.  The posted task is still in
an inbox when the end-of-tick full merge begins, sits in the dispatcher
serial array right after it, and is executed by the serial stage of the next
tick. -/
theorem serial_next_tick (last now now2 : Nat) (st : DpState) (s t : Task)
    (hlast : 1 ≤ last) (hs : s ∈ st.m_tasks 0) (hp : (0, t) ∈ s.posts)
    (hfresh : t.tid ∉ (st.m_tasks 0).map Task.tid) :
    (tick last now st).2.filter (isRunInGroup 0) =
      (st.m_tasks 0).map (fun u => TraceEv.run u.tid 0) ∧
    TraceEv.run t.tid 0 ∉ (tick last now st).2 ∧
    t ∈ flatTasks
      (executeScheduledEvents last now (executeEvents last 0 st).1).1.threads 0 ∧
    t ∈ (tick last now st).1.m_tasks 0 ∧
    TraceEv.run t.tid 0 ∈ (tick last now2 (tick last now st).1).2 := by
  have he : (st.m_tasks 0).isEmpty = false := by
    cases hm : st.m_tasks 0 with
    | nil => rw [hm] at hs; cases hs
    | cons a l => rfl
  obtain ⟨fuel, hfuel⟩ : ∃ fuel, last = fuel + 1 := ⟨last - 1, by omega⟩
  have hserial : executeEvents last 0 st =
      ((executeEvents last 1 (mergeAsyncEvents last (executeSerialEvents st).1)).1,
       (executeSerialEvents st).2 ++
         (executeEvents last 1 (mergeAsyncEvents last (executeSerialEvents st).1)).2) :=
    executeEvents_zero_unfold last st hlast he
  have hfilter : (tick last now st).2.filter (isRunInGroup 0) =
      (st.m_tasks 0).map (fun u => TraceEv.run u.tid 0) := by
    rw [tick_eq, List.filter_append]
    have hpart1 : ((executeEvents last 0 st).2).filter (isRunInGroup 0) =
        (st.m_tasks 0).map (fun u => TraceEv.run u.tid 0) := by
      rw [hserial]
      show ((executeSerialEvents st).2 ++ _).filter (isRunInGroup 0) = _
      rw [List.filter_append, executeSerialEvents_trace, List.filter_append]
      rw [filter_run0_map]
      have hr : ([TraceEv.ctxReset] : List TraceEv).filter (isRunInGroup 0) = [] := rfl
      rw [hr]
      rw [executeEvents_def]
      rw [filter_false_nil _ _ (fun ev hev => by
        rcases execFrom_events_ge last (last - 1) 1 _ (le_refl 1) ev hev with
          h1 | ⟨tid, g2, hg2, h1⟩
        · rw [h1]; rfl
        · rw [h1]; simp [isRunInGroup]; omega)]
      simp
    have hpart2 : ((executeScheduledEvents last now
        (executeEvents last 0 st).1).2).filter (isRunInGroup 0) = [] := by
      rw [executeScheduledEvents_eq, List.filter_append, List.filter_append]
      have hwalk : ((walkOf now (executeEvents last 0 st).1).2.2.2).filter
          (isRunInGroup 0) = [] := by
        apply filter_false_nil
        intro ev hev
        rw [show (walkOf now (executeEvents last 0 st).1).2.2.2 =
          (walkSched now (executeEvents last 0 st).1.cancelled
            (executeEvents last 0 st).1.scheduledTasks
            (executeEvents last 0 st).1.scheduledTasksRef
            (executeEvents last 0 st).1.threads).2.2.2 from rfl] at hev
        rw [walkSched_trace] at hev
        rcases List.mem_map.mp hev with ⟨x, _, hx⟩
        rw [← hx]
        rfl
      have hr : ([TraceEv.ctxReset] : List TraceEv).filter (isRunInGroup 0) = [] := rfl
      rw [hwalk, hr, executeEvents_def]
      rw [filter_false_nil _ _ (fun ev hev => by
        rcases execFrom_events_ge last (last - 1) 1 _ (le_refl 1) ev hev with
          h1 | ⟨tid, g2, hg2, h1⟩
        · rw [h1]; rfl
        · rw [h1]; simp [isRunInGroup]; omega)]
      simp
    rw [hpart1, hpart2]
    simp
  have hnotin : TraceEv.run t.tid 0 ∉ (tick last now st).2 := by
    intro hmem
    have hin : TraceEv.run t.tid 0 ∈ (tick last now st).2.filter (isRunInGroup 0) :=
      List.mem_filter.mpr ⟨hmem, by simp [isRunInGroup]⟩
    rw [hfilter] at hin
    rcases List.mem_map.mp hin with ⟨u, hu, hueq⟩
    have : u.tid = t.tid := by
      injection hueq
    exact hfresh (List.mem_map.mpr ⟨u, hu, this⟩)
  have hinbox : t ∈ flatTasks
      (executeScheduledEvents last now (executeEvents last 0 st).1).1.threads 0 := by
    have step1 : t ∈ flatTasks (executeSerialEvents st).1.threads 0 :=
      executeSerialEvents_tasks_insert st 0 t s hs hp
    have step2 : t ∈ flatTasks
        (mergeAsyncEvents last (executeSerialEvents st).1).threads 0 := by
      rw [mergeAsyncEvents_inbox0]; exact step1
    have step3 : t ∈ flatTasks (executeEvents last 0 st).1.threads 0 := by
      rw [hserial]
      show t ∈ flatTasks (executeEvents last 1 _).1.threads 0
      rw [executeEvents_def]
      exact execFrom_inbox0_mono last (last - 1) 1 _ t step2
    have step4 : t ∈ flatTasks (afterWalk now (executeEvents last 0 st).1).threads 0 :=
      walkSched_tasks_mono now _ _ _ _ 0 t step3
    have step5 : t ∈ flatTasks
        (mergeAsyncEvents last (afterWalk now (executeEvents last 0 st).1)).threads 0 := by
      rw [mergeAsyncEvents_inbox0]; exact step4
    rw [executeScheduledEvents_eq]
    show t ∈ flatTasks (executeEvents last 1 _).1.threads 0
    rw [executeEvents_def]
    exact execFrom_inbox0_mono last (last - 1) 1 _ t step5
  have hheld : t ∈ (tick last now st).1.m_tasks 0 := by
    rw [tick_eq]
    show t ∈ (mergeEvents _).m_tasks 0
    rw [mergeEvents_mtasks_zero]
    exact List.mem_append.mpr (Or.inr hinbox)
  exact ⟨hfilter, hnotin, hinbox, hheld,
    mem_mtasks0_run_in_tick last now2 (tick last now st).1 t hlast hheld⟩

/-- Witness for C3 at a concrete state: the serial follow-up with tid 3 does
not run in the first tick but runs in the second. -/
theorem serial_next_tick_witness :
    (tick 2 0 posterState).2.filter (isRunInGroup 0) =
      (posterState.m_tasks 0).map (fun u => TraceEv.run u.tid 0) ∧
    TraceEv.run 3 0 ∉ (tick 2 0 posterState).2 ∧
    Task.mk 3 true [] ∈ flatTasks
      (executeScheduledEvents 2 0 (executeEvents 2 0 posterState).1).1.threads 0 ∧
    Task.mk 3 true [] ∈ (tick 2 0 posterState).1.m_tasks 0 ∧
    TraceEv.run 3 0 ∈ (tick 2 1 (tick 2 0 posterState).1).2 :=
  serial_next_tick 2 0 1 posterState serialPoster (Task.mk 3 true [])
    (by decide) (List.Mem.head _) (List.Mem.tail _ (List.Mem.head _)) (by decide)

/-- Witness for C8 amended at concrete inputs. -/
theorem context_reset_amended_witness :
    (executeSerialEvents twoSerialState).2 =
      (twoSerialState.m_tasks 0).map (fun t => TraceEv.run t.tid 0) ++
        [TraceEv.ctxReset] ∧
    resetSeparated (executeParallelEvents 1 twoSerialState).2 = true ∧
    TraceEv.ctxReset ∉ (walkSched 10 [3] walkWitnessSched [1, 3, 2, 4] []).2.2.2 :=
  ⟨context_reset_amended.1 twoSerialState,
   context_reset_amended.2.2.1 1 twoSerialState,
   context_reset_amended.2.2.2.1 10 [3] walkWitnessSched [1, 3, 2, 4] []⟩

end Disp
